import Mathlib

/-!
Shallow embedding of `scripts/bagakit_skill_maker.py` (the skill-bundle
validator) and proofs about the claims of its specification.

Modelling conventions:
* Python strings are modelled as Lean `String`; most character-level work is
  done on `List Char` (`String.data`).
* Python regular expressions are translated into explicit character-list
  scanners.  `re`'s `\s` and `\w` classes are modelled by their ASCII parts
  (the documents and keyword lists the validator works with use ASCII plus
  CJK hint words, and CJK characters occur only inside plain substring
  checks, never adjacent to `\b`-anchored matches of interest).
* `str.lower()` is modelled as ASCII lowercasing (the validator's keyword
  vocabulary is ASCII/CJK, and CJK characters are fixed points of `lower`).
* The filesystem is a record of functions (`SkillFS` below); directory
  enumeration (`Path.rglob`) is a raw, unordered listing which the model
  sorts exactly where the source calls `sorted(...)`.
-/

/-- The apostrophe character (written numerically). -/
def sqc : Char := Char.ofNat 39

/-- The apostrophe as a one-character string, used when rebuilding the
validator's diagnostic messages. -/
def sqStr : String := String.mk [sqc]

/-- ASCII part of Python's `\s` / `str.strip()` whitespace:
space, tab, newline, carriage return, vertical tab, form feed. -/
def isPyWs (c : Char) : Bool :=
  c = ' ' || c = '\t' || c = '\n' || c = '\r' || c = Char.ofNat 11 || c = Char.ofNat 12

/-- ASCII lowercase letter. -/
def cLower (c : Char) : Bool := 97 ≤ c.toNat && c.toNat ≤ 122

/-- ASCII uppercase letter. -/
def cUpper (c : Char) : Bool := 65 ≤ c.toNat && c.toNat ≤ 90

/-- ASCII digit. -/
def cDigit (c : Char) : Bool := 48 ≤ c.toNat && c.toNat ≤ 57

/-- ASCII letter. -/
def cAlpha (c : Char) : Bool := cLower c || cUpper c

/-- ASCII alphanumeric. -/
def cAlnum (c : Char) : Bool := cAlpha c || cDigit c

/-- `[a-z0-9]`. -/
def cLowDig (c : Char) : Bool := cLower c || cDigit c

/-- ASCII part of the regex word class `\w` (`[A-Za-z0-9_]`). -/
def cWord (c : Char) : Bool := cAlnum c || c = '_'

/-- `str.lower()` on one character (ASCII part). -/
def lowerChar (c : Char) : Char :=
  if cUpper c then Char.ofNat (c.toNat + 32) else c

/-- `str.lower()` (ASCII part; CJK characters are fixed points in Python too). -/
def lowerStr (s : String) : String := String.mk (s.data.map lowerChar)

/-- Does the character list start with the given pattern? -/
def startsChars : List Char → List Char → Bool
  | [], _ => true
  | _ :: _, [] => false
  | p :: ps, c :: cs => p = c && startsChars ps cs

/-- Is `pat` a contiguous sublist of `l`?  Models Python's `pat in s`. -/
def hasSubChars (pat : List Char) : List Char → Bool
  | [] => startsChars pat []
  | c :: cs => startsChars pat (c :: cs) || hasSubChars pat cs

/-- Python `pat in s` on strings. -/
def hasSub (pat s : String) : Bool := hasSubChars pat.data s.data

/-- Python `s.startswith(pat)` on strings. -/
def strStarts (pat s : String) : Bool := startsChars pat.data s.data

/-- Drop trailing characters satisfying `p`. -/
def dropEndWhile (p : Char → Bool) (l : List Char) : List Char :=
  (l.reverse.dropWhile p).reverse

/-- Python `str.strip()` on a character list. -/
def stripChars (l : List Char) : List Char :=
  dropEndWhile isPyWs (l.dropWhile isPyWs)

/-- Python `str.strip()`. -/
def pyStrip (s : String) : String := String.mk (stripChars s.data)

/-- Python `str.strip(ch)`: remove all leading/trailing copies of `ch`. -/
def stripCharBoth (ch : Char) (l : List Char) : List Char :=
  dropEndWhile (· = ch) (l.dropWhile (· = ch))

/-- All-whitespace character list (also true of the empty list). -/
def wsOnly (l : List Char) : Bool := l.all isPyWs

/-- Split a character list at every occurrence of `sep` (the separators are
dropped; `n+1` segments for `n` separators, so a trailing separator yields a
trailing empty segment). -/
def splitOnCh (sep : Char) : List Char → List (List Char)
  | [] => [[]]
  | c :: rest =>
    if c = sep then [] :: splitOnCh sep rest
    else
      match splitOnCh sep rest with
      | [] => [[c]]
      | h :: t => (c :: h) :: t

/-- The lines of a text for purposes of `re.MULTILINE` anchors, which only
recognise `\n`: split at every newline, keeping the final (possibly empty)
segment. -/
def splitNl (s : String) : List String :=
  (splitOnCh '\n' s.data).map String.mk

/-- Python `str.splitlines()` on a character list: split at `\r\n`, `\r` or
`\n`, with no trailing empty segment.  (Python also splits at a few rarer
code points (vertical tab, form feed, the file/group/record separators,
NEL and the Unicode line and paragraph separators) that this model omits. -/
def pySplitAux (cur : List Char) : List Char → List (List Char)
  | [] => [cur.reverse]
  | '\r' :: '\n' :: rest =>
    cur.reverse :: (match rest with | [] => [] | x :: xs => pySplitAux [] (x :: xs))
  | '\r' :: rest =>
    cur.reverse :: (match rest with | [] => [] | x :: xs => pySplitAux [] (x :: xs))
  | '\n' :: rest =>
    cur.reverse :: (match rest with | [] => [] | x :: xs => pySplitAux [] (x :: xs))
  | c :: rest => pySplitAux (c :: cur) rest

/-- Python `str.splitlines()`. -/
def pySplitlines (s : String) : List String :=
  match s.data with
  | [] => []
  | c :: rest => (pySplitAux [] (c :: rest)).map String.mk

/-- Pair every element with its 1-based position (Python `enumerate(xs, 1)`). -/
def enumFrom (n : Nat) : List α → List (Nat × α)
  | [] => []
  | x :: xs => (n, x) :: enumFrom (n + 1) xs

/-- Lexicographic comparison of character lists by code point — Python's
string `<=`. -/
def leChars : List Char → List Char → Bool
  | [], _ => true
  | _ :: _, [] => false
  | a :: as, b :: bs =>
    if a.toNat < b.toNat then true
    else if b.toNat < a.toNat then false
    else leChars as bs

/-- Python string comparison `a <= b` (sorting key for `sorted(...)` on
strings; `Path` objects sort differently — see `pathLe`). -/
def strLe (a b : String) : Bool := leChars a.data b.data

/-- Insert into a `strLe`-sorted list. -/
def insertStr (x : String) : List String → List String
  | [] => [x]
  | y :: ys => if strLe x y then x :: y :: ys else y :: insertStr x ys

/-- Sorting by `strLe`: the model of Python `sorted(...)` on strings.
(Any correct sort produces the same list here because `strLe` is total and
antisymmetric, so the choice of algorithm is immaterial.) -/
def sortStr : List String → List String
  | [] => []
  | x :: xs => insertStr x (sortStr xs)

/-- Remove adjacent duplicates (applied after sorting this yields the sorted
list of distinct elements, i.e. Python's `sorted(set(xs))`). -/
def dedupAdj : List String → List String
  | [] => []
  | [x] => [x]
  | x :: y :: rest =>
    if x = y then dedupAdj (y :: rest) else x :: dedupAdj (y :: rest)

/-- Python `sorted(set(xs))` for strings. -/
def sortedDedup (l : List String) : List String := dedupAdj (sortStr l)

/-! ## Path modelling (`pathlib.PurePosixPath`) -/

/-- The components of a relative path, after `PurePosixPath` normalisation:
empty segments (doubled slashes, trailing slash) and `.` segments are
dropped; `..` is kept as an ordinary segment.  Models `Path(p).parts` for
the membership test `".." in Path(p).parts`. -/
def pathSegs (p : String) : List String :=
  ((splitOnCh '/' p.data).map String.mk).filter (fun s => s ≠ "" && s ≠ ".")

/-- `str(skill_dir / p)` relative to the bundle root: `PurePosixPath`
normalisation of a path string (a leading `/` is preserved).  Models how a
manifest entry is rendered once joined to the bundle directory. -/
def normPath (p : String) : String :=
  (if strStarts "/" p then "/" else "") ++ String.intercalate "/" (pathSegs p)

/-- `Path(p).name`: the final path component (empty for the empty path). -/
def lastSeg (p : String) : String :=
  (pathSegs p).getLastD ""

/-- Three-way code-point comparison of character lists — Python string
comparison. -/
def cmpChars : List Char → List Char → Ordering
  | [], [] => .eq
  | [], _ :: _ => .lt
  | _ :: _, [] => .gt
  | a :: as, b :: bs =>
    if a.toNat < b.toNat then .lt
    else if b.toNat < a.toNat then .gt
    else cmpChars as bs

/-- Lexicographic comparison of part tuples (lists of strings) — how
`pathlib.PurePath` objects compare: by their `parts` tuples, component by
component. -/
def cmpSegs : List String → List String → Ordering
  | [], [] => .eq
  | [], _ :: _ => .lt
  | _ :: _, [] => .gt
  | a :: as, b :: bs =>
    match cmpChars a.data b.data with
    | .lt => .lt
    | .gt => .gt
    | .eq => cmpSegs as bs

/-- `Path` ordering for Python's `sorted(...)` over path objects: paths
compare by their parts tuples (`PurePath.__lt__`), not by their raw
strings — e.g. `reference/tpl-notes.md` sorts *after* `reference/tpl/x.md`
because the component `tpl` precedes `tpl-notes.md`, although as strings
`-` < `/`.  Two distinct strings with equal parts (impossible for the
normalised enumeration strings the validator sorts) are tie-broken by the
raw string so that the order stays antisymmetric. -/
def pathLe (a b : String) : Bool :=
  match cmpSegs (pathSegs a) (pathSegs b) with
  | .lt => true
  | .gt => false
  | .eq => strLe a b

/-- Insert into a `pathLe`-sorted list. -/
def insertPath (x : String) : List String → List String
  | [] => [x]
  | y :: ys => if pathLe x y then x :: y :: ys else y :: insertPath x ys

/-- Sorting by `pathLe`: the model of Python `sorted(...)` on `Path`
objects (any correct sort produces the same list, `pathLe` being total and
antisymmetric). -/
def sortPath : List String → List String
  | [] => []
  | x :: xs => insertPath x (sortPath xs)

/-- Python `sorted(set(...))` on `Path` objects. -/
def sortedDedupPath (l : List String) : List String := dedupAdj (sortPath l)

/-- The position just after the last `.` of a name, if any. -/
def lastDotIdx (n : List Char) : Option Nat :=
  match n.reverse.findIdx? (· = '.') with
  | none => none
  | some j => some (n.length - 1 - j)

/-- `Path(name).suffix` for a bare file name: the part from the last dot on,
unless that dot is the first or last character. -/
def suffixOfName (n : List Char) : List Char :=
  match lastDotIdx n with
  | none => []
  | some i => if 0 < i && i + 1 < n.length then n.drop i else []

/-- `Path(name).stem` for a bare file name. -/
def stemOfName (n : List Char) : List Char :=
  match lastDotIdx n with
  | none => n
  | some i => if 0 < i && i + 1 < n.length then n.take i else n

/-- `Path(p).suffix.lower()` of a relative path. -/
def pathSuffixLower (p : String) : String :=
  lowerStr (String.mk (suffixOfName (lastSeg p).data))

/-- `Path(p).stem.lower()` of a relative path. -/
def pathStemLower (p : String) : String :=
  lowerStr (String.mk (stemOfName (lastSeg p).data))

/-! ## The validator's constant tables (`bagakit_skill_maker.py` lines 13–110) -/

/-- `PLACEHOLDER_HINTS` (substring matched, case-sensitively, against the
frontmatter description). -/
def placeholderHints : List String := ["TODO", "[TODO", "replace"]

/-- `MAX_SKILL_LINES`. -/
def maxSkillLines : Nat := 500

/-- `GENERIC_FILE_STEMS` (the whole stem is tested for membership). -/
def genericFileStems : List String :=
  ["helper", "helpers", "misc", "tmp", "temp", "util", "utils", "test", "tests"]

/-- `LEGACY_TERMS` (matched against the hyphen/underscore-split stem tokens). -/
def legacyTerms : List String :=
  ["legacy", "compat", "deprecated", "workaround", "shim", "backward", "old"]

/-- `OPTIONAL_HINTS`. -/
def optionalHints : List String :=
  ["optional", "if available", "if installed", "contract", "schema", "signal",
   "可选", "契约", "信号"]

/-- `COUPLING_HINTS` (note the trailing space in `"sh "`). -/
def couplingHints : List String :=
  ["must", "require", "required", "depends", "dependency", "before", "call",
   "invoke", "run", "execute", "bash", "sh ", "python", "node"]

/-- `NON_SKILL_BAGAKIT_TOKENS`. -/
def nonSkillBagakitTokens : List String :=
  ["bagakit-series", "bagakit-profile", "bagakit-profile-guide", "bagakit-home"]

/-- `ACTION_HINTS`. -/
def actionHints : List String :=
  ["action", "execute", "execution", "task", "交付", "执行", "推进"]

/-- `MEMORY_HINTS`. -/
def memoryHints : List String :=
  ["memory", "summary", "knowledge", "inbox", "沉淀", "记忆", "总结"]

/-- `ARCHIVE_HINTS`. -/
def archiveHints : List String :=
  ["archive", "destination", "path", "id", "归档", "去向"]

/-- `ADAPTER_HINTS`. -/
def adapterHints : List String :=
  ["adapter", "integration", "connector", "bridge", "external", "upstream",
   "downstream", "route", "system", "联动"]

/-- `GENERIC_ADAPTER_HINTS`. -/
def genericAdapterHints : List String :=
  ["task driver", "task-driver", "spec system", "spec-system", "memory system",
   "memory-system", "adapter class", "capability", "contract-driven",
   "rule-driven", "name-bound", "系统无关", "能力", "契约"]

/-- `CONCRETE_ADAPTER_HINTS`. -/
def concreteAdapterHints : List String :=
  ["feat-harness", "feat-task-harness", "openspec", "living-docs"]

/-- `NO_ADAPTER_HINTS`. -/
def noAdapterHints : List String :=
  ["no adapter", "no external", "standalone-only", "standalone first", "none",
   "无需联动", "无联动", "仅本地"]

/-- The inline tuple used for "explicit none rationale" memory checks. -/
def memoryNoneHints : List String :=
  ["no memory", "none", "无沉淀", "无记忆", "无需沉淀"]

/-- The inline tuple used for the completion-gate warning in the archive block. -/
def completionHints : List String :=
  ["complete", "completion", "gate", "准出", "完成"]

/-- The inline tuple used for the archetype warning in the output block. -/
def archetypeHints : List String :=
  ["archetype", "type", "分类", "类别", "产物"]

/-- `ALLOWED_SCRIPT_EXTENSIONS`. -/
def allowedScriptExtensions : List String := [".sh", ".py", ".js", ".ts"]

/-- `ALLOWED_REFERENCE_EXTENSIONS`. -/
def allowedReferenceExtensions : List String := [".md", ".txt", ".json", ".yaml", ".yml"]

/-- `ABSOLUTE_PATH_SCAN_EXTENSIONS`. -/
def absolutePathScanExtensions : List String := [".md", ".txt", ".json", ".yaml", ".yml"]

/-- `DISCOURAGED_ADAPTER_KEYS`. -/
def discouragedAdapterKeys : List String :=
  ["driver_ftharness", "driver_openspec", "driver_longrun"]

/-- `ANTI_PATTERN_HINTS`. -/
def antiPatternHints : List String :=
  ["avoid", "bad pattern", "anti-pattern", "instead of", "不要", "避免", "禁用"]

/-- `REFERENCE_DIR_CANONICAL`. -/
def referenceDirCanonical : String := "reference"

/-- `REFERENCE_DIR_LEGACY`. -/
def referenceDirLegacy : String := "references"

/-- Does any of the hint substrings occur in the character list? -/
def anyHintIn (hints : List String) (l : List Char) : Bool :=
  hints.any (fun h => hasSubChars h.data l)

/-! ## Regex translations -/

/-- `NAME_RE = ^[a-z0-9](?:[a-z0-9-]{0,62}[a-z0-9])?$` as a full-string
predicate (`NAME_RE.match(s)` with the trailing `$`; the `$`-before-final-
newline corner of Python never arises because matched values are stripped). -/
def nameOk (s : String) : Bool :=
  match s.data with
  | [] => false
  | [c] => cLowDig c
  | c :: rest =>
    cLowDig c && (c :: rest).length ≤ 64
      && (match rest.getLast? with
          | some cl => cLowDig cl
          | none => false)
      && rest.dropLast.all (fun x => cLowDig x || x = '-')

/-- `FILE_STEM_RE = ^[a-z0-9][a-z0-9_-]*$` as a full-string predicate. -/
def fileStemOk (s : String) : Bool :=
  match s.data with
  | [] => false
  | c :: rest => cLowDig c && rest.all (fun x => cLowDig x || x = '-' || x = '_')

/-- Is there an occurrence of the word `w` with a `\b` boundary on both
sides?  Models existence of a match of `\bw\b` (for ASCII `w`). -/
def wordHitAux (w : List Char) (prev : Option Char) : List Char → Bool
  | [] => false
  | c :: cs =>
    (decide (prev.all (fun p => ¬ cWord p))
        && startsChars w (c :: cs)
        && (match (c :: cs).drop w.length with
            | [] => true
            | x :: _ => ¬ cWord x))
      || wordHitAux w (some c) cs

/-- `re.search(r"\bw\b", l)` as existence, for a word `w`. -/
def wordHit (w : String) (l : List Char) : Bool := wordHitAux w.data none l

/-- `re.search(r"\bwhen\b|适用|当|用于", descLower)`: the description-trigger
test applied to the lowercased description. -/
def descTriggerHit (descLower : String) : Bool :=
  wordHit "when" descLower.data
    || hasSub "适用" descLower || hasSub "当" descLower || hasSub "用于" descLower

/-- `re.search(r"\b(bash|sh|python3?|node)\b", l)` as existence. -/
def execVerbHit (l : List Char) : Bool :=
  ["bash", "sh", "python3", "python", "node"].any (fun w => wordHit w l)

/-- Characters allowed inside a path segment of the absolute-path regexes:
the class `[^\s\"'`<>|]` (ASCII `\s` part). -/
def segCh (c : Char) : Bool :=
  ¬ isPyWs c && c ≠ '"' && c ≠ sqc && c ≠ Char.ofNat 96 && c ≠ '<' && c ≠ '>' && c ≠ '|'

/-- The lookbehind `(?<![:A-Za-z0-9_])` of `ABSOLUTE_POSIX_RE`: the previous
character, if any, must not be a colon, ASCII letter/digit or underscore. -/
def posixLbOk (prev : Option Char) : Bool :=
  prev.all (fun p => ¬ (p = ':' || cAlnum p || p = '_'))

/-- The prefix words of `ABSOLUTE_POSIX_RE` (`/(?:Users|home|...)`). -/
def posixPrefixWords : List String :=
  ["Users", "home", "private", "var", "tmp", "opt", "usr", "etc", "mnt",
   "Volumes", "absolute"]

/-- After a `/`, does the rest of the line continue with one of the prefix
words followed by `(?:/[segment-chars]+)+` (one group suffices for a match
to exist)? -/
def posixAfterSlash (rest : List Char) : Bool :=
  posixPrefixWords.any (fun w =>
    startsChars w.data rest
      && (match rest.drop w.data.length with
          | '/' :: c :: _ => segCh c
          | _ => false))

/-- Scan a line for a match of `ABSOLUTE_POSIX_RE` (existence only — the
validator only tests `re.search(...)` truthiness per line). -/
def posixScanAux (prev : Option Char) : List Char → Bool
  | [] => false
  | c :: cs =>
    (c = '/' && posixLbOk prev && posixAfterSlash cs) || posixScanAux (some c) cs

/-- Scan a line for a match of
`ABSOLUTE_WINDOWS_RE = (?i)\b[A-Z]:[\\/][^\s\"'`<>|]+` (existence only). -/
def winScanAux (prev : Option Char) : List Char → Bool
  | [] => false
  | c :: cs =>
    (decide (prev.all (fun p => ¬ cWord p))
        && cAlpha c
        && (match cs with
            | ':' :: s :: x :: _ => (s = '\\' || s = '/') && segCh x
            | _ => false))
      || winScanAux (some c) cs

/-- One line of text contains an absolute path literal
(`ABSOLUTE_POSIX_RE.search(line) or ABSOLUTE_WINDOWS_RE.search(line)`). -/
def lineAbsHit (line : String) : Bool :=
  posixScanAux none line.data || winScanAux none line.data

/-! ## `scan_hard_coupling` (lines 387–410) -/

/-- Trailing-`\b` test for a candidate token ending: the boundary between the
token's last character and the following character (if any) must separate a
word character from a non-word one. -/
def tokenEndOk (lastC : Char) (next : Option Char) : Bool :=
  (cWord lastC && decide (next.all (fun x => ¬ cWord x)))
    || (¬ cWord lastC && (match next with | some x => cWord x | none => false))

/-- Greedy backtracking of `[a-z0-9-]+\b`: given the reversed maximal class
run and the character following it, find the longest non-empty prefix of the
run (returned reversed) whose end satisfies `\b`. -/
def bestTokEndRev : List Char → Option Char → Option (List Char)
  | [], _ => none
  | c :: rest, x =>
    if tokenEndOk c x then some (c :: rest) else bestTokEndRev rest (some c)

/-- Character class `[a-z0-9-]` of the cross-bundle token pattern. -/
def bkClass (c : Char) : Bool := cLowDig c || c = '-'

/-- The literal `bagakit-` of the token pattern. -/
def bagakitLit : List Char := "bagakit-".data

/-- `re.findall(r"\bbagakit-[a-z0-9-]+\b", lower)`: left-to-right,
non-overlapping matches; on a successful match scanning resumes after the
match, on failure at the next character.  Structural recursion on a fuel
argument (a successful match consumes at least nine characters and every
other step one, so `l.length + 1` fuel always suffices and the fuel-out
branch is unreachable from `bkTokens`). -/
def bkAux : Nat → Option Char → List Char → List (List Char)
  | 0, _, _ => []
  | _ + 1, _, [] => []
  | fuel + 1, prev, c :: rest =>
    if decide (prev.all (fun p => ¬ cWord p)) && startsChars bagakitLit (c :: rest) then
      let after := (c :: rest).drop 8
      let run := after.takeWhile bkClass
      let next := (after.drop run.length).head?
      match bestTokEndRev run.reverse next with
      | some srev =>
        let s := srev.reverse
        (bagakitLit ++ s) :: bkAux fuel srev.head? ((c :: rest).drop (8 + s.length))
      | none => bkAux fuel (some c) rest
    else bkAux fuel (some c) rest

/-- All `bagakit-*` tokens found in a (lowercased) line. -/
def bkTokens (l : List Char) : List String :=
  (bkAux (l.length + 1) none l).map String.mk

/-- `re.search(r"/skills/([a-z0-9-]+)", lower)`: the captured group of the
first match, if any. -/
def skillsRefAux : List Char → Option String
  | [] => none
  | c :: rest =>
    if startsChars "/skills/".data (c :: rest) then
      let run := ((c :: rest).drop 8).takeWhile bkClass
      if run ≠ [] then some (String.mk run) else skillsRefAux rest
    else skillsRefAux rest

/-- `line_is_optional_contract` (lines 359–361), applied to an
already-lowercased line (the source lowercases idempotently). -/
def lineIsOptionalContract (lower : List Char) : Bool :=
  anyHintIn optionalHints lower

/-- A structured diagnostic of the coupling scanner: the 1-based line number
and the offending token (`cross` for the `bagakit-*` reference rule,
`direct` for the `/skills/<name>` direct-call rule). -/
inductive CoupDiag where
  | cross (idx : Nat) (token : String)
  | direct (idx : Nat) (target : String)
deriving DecidableEq

/-- The token a coupling diagnostic complains about. -/
def CoupDiag.tokenOf : CoupDiag → String
  | .cross _ t => t
  | .direct _ t => t

/-- The `bagakit-*` token loop of `scan_hard_coupling` for one line. -/
def lineCrossDiags (idx : Nat) (lower : List Char) (own : String) : List CoupDiag :=
  (bkTokens lower).filterMap (fun tok =>
    if tok = own then none
    else if tok ∈ nonSkillBagakitTokens then none
    else if ¬ anyHintIn couplingHints lower then none
    else if lineIsOptionalContract lower then none
    else some (.cross idx tok))

/-- The `/skills/<name>` direct-call check of `scan_hard_coupling` for one
line. -/
def lineDirectDiags (idx : Nat) (lower : List Char) (own : String) : List CoupDiag :=
  match skillsRefAux lower with
  | some target =>
    if execVerbHit lower then
      if target ≠ own && ¬ lineIsOptionalContract lower then [.direct idx target]
      else []
    else []
  | none => none |>.toList

/-- `scan_hard_coupling`, structurally: all coupling diagnostics of the
descriptor text given the bundle's own frontmatter name. -/
def scanHardCouplingDiags (text own : String) : List CoupDiag :=
  (enumFrom 1 (pySplitlines text)).flatMap (fun p =>
    let lower := (lowerStr p.2).data
    lineCrossDiags p.1 lower own ++ lineDirectDiags p.1 lower own)

/-- Message rendering of a coupling diagnostic (f-strings of lines 399–401
and 407–409). -/
def renderCoup : CoupDiag → String
  | .cross i t =>
    "line " ++ toString i ++ ": cross-skill reference " ++ sqStr ++ t ++ sqStr
      ++ " must be optional and contract/signal based"
  | .direct i t =>
    "line " ++ toString i ++ ": direct call to other skill " ++ sqStr ++ t ++ sqStr
      ++ " is not allowed without optional contract wording"

/-- `scan_hard_coupling` with its string messages. -/
def scanHardCoupling (text own : String) : List String :=
  (scanHardCouplingDiags text own).map renderCoup

/-! ## `scan_metadata_contract_signals` (lines 413–440) -/

/-- `scan_metadata_contract_signals`: advisory warnings about discouraged
adapter-specific metadata keys and frontmatter-format wording. -/
def scanMetadataContractSignals (text : String) : List String :=
  let lower := lowerStr text
  let found := (pySplitlines text).flatMap (fun line =>
    let ll := (lowerStr line).data
    if anyHintIn antiPatternHints ll then []
    else discouragedAdapterKeys.filter (fun k => hasSubChars k.data ll))
  let uniq := sortedDedup found
  (if uniq ≠ [] then
    ("metadata contract may be over-coupled: found adapter-specific keys "
        ++ String.intercalate ", " uniq
        ++ "; prefer semantic keys like driver + driver_meta")
      :: (if ¬ hasSub "driver_meta" lower || ¬ hasSub "driver" lower then
            ["metadata contract should document semantic generic key + parseable meta pattern"]
          else [])
   else [])
  ++ (if hasSub "machine-readable" lower && hasSub "frontmatter" lower
        && ¬ hasSub "toml" lower then
        ["machine-readable frontmatter detected without TOML wording; prefer TOML frontmatter (`+++`) in artifacts"]
      else [])

/-! ## Section lookup (`section_block` / `section_has_bullets`, lines 364–378)

The heading regexes of `cmd_validate` are all of the form
`^##\s+<alternatives>\s*$` and are applied with `re.IGNORECASE | re.MULTILINE`
over the whole document.  `\s` also matches the newline, so a match need
not sit on one line: the run after `##` can cross blank lines before the
literal, the parenthesis groups of the fallback/archive patterns can sit
on a later line, and the closing `\s*$` swallows trailing blank lines.
The matchers below therefore work on the suffix of the document's line
list starting at the candidate `^` position, and report on which line the
matched content ends. -/

/-- Match a literal followed by a continuation on the remainder. -/
def litThen (lit : String) (k : List Char → Bool) (l : List Char) : Bool :=
  startsChars lit.data l && k (l.drop lit.data.length)

/-- `\(.*\)` at the head of a non-whitespace line suffix, followed by
`\s*$`: an opening parenthesis whose line's trailing non-whitespace ends
with `)` (`.` does not match a newline, so the parenthesised text sits on
one line; the greedy `.*` backtracks to the last `)` and everything after
it on the line must be whitespace). -/
def parenHere (u : List Char) : Bool :=
  match u with
  | '(' :: more =>
    let v := dropEndWhile isPyWs more
    v ≠ [] && v.getLast? = some ')'
  | _ => false

/-- The group `\s*\(.*\)` when its `\s*` crosses the newline: skip
whitespace-only lines; the parenthesised text must then start at the first
non-whitespace character of the first non-blank line, or the group fails.
Returns that line's offset (1-based from the literal's line). -/
def parenOnLater : List String → Nat → Option Nat
  | [], _ => none
  | l :: rest, e =>
    let u := (lowerStr l).data.dropWhile isPyWs
    if u = [] then parenOnLater rest (e + 1)
    else if parenHere u then some (e + 1) else none

/-- `(?:\s*\(.*\))?\s*$` after a matched literal whose line remainder is
`r2`: the greedy optional group is tried first — on the same line when
non-whitespace text follows the literal, else on the first non-blank later
line — and on its failure the group is dropped, leaving `\s*$`, which
succeeds exactly when `r2` is all whitespace. -/
def parenCont (r2 : List Char) (after : List String) : Option Nat :=
  let u := r2.dropWhile isPyWs
  if u = [] then
    match parenOnLater after 0 with
    | some d => some d
    | none => some 0
  else if parenHere u then some 0 else none

/-- Content matcher for `When to Use(?: This Skill)?\s*$` at the (lowered)
literal position `u`: both readings of the optional group end on the
literal's line with only whitespace after them, offset `0`. -/
def whenToUseCont (u : List Char) (_after : List String) : Option Nat :=
  if litThen "when to use" (fun r2 => wsOnly r2 || litThen " this skill" wsOnly r2) u
  then some 0 else none

/-- Content matcher for `When NOT to Use(?: This Skill)?\s*$`. -/
def whenNotToUseCont (u : List Char) (_after : List String) : Option Nat :=
  if litThen "when not to use" (fun r2 => wsOnly r2 || litThen " this skill" wsOnly r2) u
  then some 0 else none

/-- Content matcher for
`(?:Fallback Path(?:\s*\(.*\))?|When No Clear Fit(?:\s*\(.*\))?)\s*$`
(the two alternatives start with different literals, so at most one
applies). -/
def fallbackCont (u : List Char) (after : List String) : Option Nat :=
  if startsChars "fallback path".data u then parenCont (u.drop 13) after
  else if startsChars "when no clear fit".data u then parenCont (u.drop 17) after
  else none

/-- Content matcher for
`(?:Output Routes(?: and Default Mode)?|Output Contract|Output System Contract)\s*$`. -/
def outputCont (u : List Char) (_after : List String) : Option Nat :=
  if litThen "output routes"
        (fun r2 => wsOnly r2 || litThen " and default mode" wsOnly r2) u
      || litThen "output contract" wsOnly u
      || litThen "output system contract" wsOnly u
  then some 0 else none

/-- Content matcher for `(?:Archive Gate(?:\s*\(.*\))?|Completion Handoff
(?: and Archive)?|Archive(?: and Handoff)?)\s*$`.  The alternatives are
tried in source order: when `archive gate` matches but its parenthesis
group and closing `\s*$` both fail, the regex backtracks into the later
alternatives (relevant because `archive` is a prefix of `archive gate`). -/
def archiveCont (u : List Char) (after : List String) : Option Nat :=
  match (if startsChars "archive gate".data u
      then parenCont (u.drop 12) after else none) with
  | some d => some d
  | none =>
    if litThen "completion handoff"
          (fun r2 => wsOnly r2 || litThen " and archive" wsOnly r2) u
        || litThen "archive" (fun r2 => wsOnly r2 || litThen " and handoff" wsOnly r2) u
    then some 0 else none

/-- After a `##` line whose tail is all whitespace, `\s+` runs through the
newline and any further blank lines; the heading literal must start at the
first non-whitespace character of the first non-blank line. -/
def skipToLit (cm : List Char → List String → Option Nat) :
    List String → Nat → Option Nat
  | [], _ => none
  | l :: rest, e =>
    let u := (lowerStr l).data.dropWhile isPyWs
    if u = [] then skipToLit cm rest (e + 1)
    else (cm u rest).map (fun d => e + 1 + d)

/-- `\s+<content>` after a leading `##`, where `t0` is the rest of the `##`
line: when non-whitespace follows on the same line the literal must start
right after the (at least one character long) whitespace run; when the
rest of the line is whitespace, `\s+` continues across the newline
(`skipToLit`) — which requires a following line to supply the newline. -/
def headAfterHash (cm : List Char → List String → Option Nat)
    (t0 : List Char) (rest : List String) : Option Nat :=
  match t0 with
  | [] => skipToLit cm rest 0
  | c :: t1 =>
    if isPyWs c then
      match (c :: t1).dropWhile isPyWs with
      | [] => skipToLit cm rest 0
      | u => cm u rest
    else none

/-- One attempt of a heading pattern `^##\s+<content>` at the start of a
line-list suffix: `some d` when the pattern matches there, `d` being the
offset of the line on which the matched content (before the closing
`\s*$`) ends. -/
def headFind (cm : List Char → List String → Option Nat) :
    List String → Option Nat
  | [] => none
  | l0 :: rest =>
    match (lowerStr l0).data with
    | c1 :: c2 :: t0 =>
      if c1 = '#' && c2 = '#' then headAfterHash cm t0 rest else none
    | _ => none

/-- Heading matcher `^##\s+When to Use(?: This Skill)?\s*$`
(IGNORECASE | MULTILINE) at the start of a line-list suffix.  `\s+` may
cross newlines, so a bare `##` line followed by blank lines and the
literal also matches. -/
def whenToUseHead (ls : List String) : Option Nat := headFind whenToUseCont ls

/-- Heading matcher `^##\s+When NOT to Use(?: This Skill)?\s*$`. -/
def whenNotToUseHead (ls : List String) : Option Nat := headFind whenNotToUseCont ls

/-- Heading matcher
`^##\s+(?:Fallback Path(?:\s*\(.*\))?|When No Clear Fit(?:\s*\(.*\))?)\s*$`. -/
def fallbackHead (ls : List String) : Option Nat := headFind fallbackCont ls

/-- Heading matcher
`^##\s+(?:Output Routes(?: and Default Mode)?|Output Contract|Output System Contract)\s*$`. -/
def outputHead (ls : List String) : Option Nat := headFind outputCont ls

/-- Heading matcher `^##\s+(?:Archive Gate(?:\s*\(.*\))?|Completion Handoff
(?: and Archive)?|Archive(?: and Handoff)?)\s*$`. -/
def archiveHead (ls : List String) : Option Nat := headFind archiveCont ls

/-- A line starting with `##` followed by a whitespace character — the
in-line reading of `^##\s+`. -/
def h2ws (line : String) : Bool :=
  match line.data with
  | '#' :: '#' :: c :: _ => isPyWs c
  | _ => false

/-- Does a line start the next section for `re.search(r"(?m)^##\s+", tail)`?
True when the line starts with `##` plus whitespace; a bare `##` line also
matches unless it is the final segment, because the newline that terminates
it satisfies `\s`. -/
def isH2Start (line : String) (isLast : Bool) : Bool :=
  h2ws line || (line = "##" && ¬ isLast)

/-- The lines strictly before the next `^##\s+` heading, and whether such a
heading was found. -/
def takeToH2 : List String → List String × Bool
  | [] => ([], false)
  | l :: rest =>
    if isH2Start l (rest = []) then ([], true)
    else
      let p := takeToH2 rest
      (l :: p.1, p.2)

/-- `re.search` of a heading pattern over the whole document: try the
pattern at each line start (`^` only anchors there), returning the lines
after the content-end line of the first (leftmost) match. -/
def sectionFindM (m : List String → Option Nat) : List String → Option (List String)
  | [] => none
  | l :: rest =>
    match m (l :: rest) with
    | some d => some ((l :: rest).drop (d + 1))
    | none => sectionFindM m rest

/-- `section_block(skill_text, heading_re)`.

The returned string reproduces the Python slice
`tail[:next_heading.start()]` with `tail = skill_text[match.end():]`:
the heading regex ends in a greedy `\s*$`, so `match.end()` sits just
before the last newline of the whitespace run following the matched
content — hence the result starts with a single newline and any blank
lines between the content-end line and the body are consumed; if only
whitespace follows, the match extends to the end of the text and the
block is empty.  (None of the downstream uses — bullet counting,
lowercased substring tests, truthiness — can tell consumed blank lines
apart, but emptiness matters for truthiness and is modelled exactly.) -/
def sectionBlock (text : String) (m : List String → Option Nat) : Option String :=
  (sectionFindM m (splitNl text)).map (fun rest =>
    let rest2 := rest.dropWhile (fun l => wsOnly l.data)
    if rest2 = [] then ""
    else
      match takeToH2 rest2 with
      | (mid, true) => "\n" ++ String.join (mid.map (· ++ "\n"))
      | (mid, false) => "\n" ++ String.intercalate "\n" mid)

/-- One attempt of the bullet pattern `(?m)^\s*[-*]\s+\S` at a line-start
position: `\s*` runs (possibly across newlines) to the first
non-whitespace character, which must be `-` or `*`; `\s+` needs at least
one whitespace character and may also cross a newline — so `- ` ending a
line matches into the following line — and `\S` one non-whitespace
character.  Returns the remainder after the matched character. -/
def bulletMatch (l : List Char) : Option (List Char) :=
  match l.dropWhile isPyWs with
  | [] => none
  | m :: rest =>
    if m = '-' || m = '*' then
      match rest with
      | [] => none
      | w :: _ =>
        if isPyWs w then
          match rest.dropWhile isPyWs with
          | [] => none
          | _ :: r => some r
        else none
    else none

/-- The suffix after the next newline — the next `(?m)^` position. -/
def dropLine : List Char → List Char
  | [] => []
  | c :: r => if c = '\n' then r else dropLine r

/-- `len(re.findall(r"(?m)^\s*[-*]\s+\S", block))`: the pattern is tried
at each line start; a successful match resumes the scan after its end
(matches are non-overlapping and a match never ends at a line start), a
failed one at the next line start.  The fuel argument (length + 1 at the
top call) only certifies termination. -/
def bulletCountAux : Nat → List Char → Nat
  | 0, _ => 0
  | _, [] => 0
  | fuel + 1, c :: l =>
    match bulletMatch (c :: l) with
    | some r => 1 + bulletCountAux fuel (dropLine r)
    | none => bulletCountAux fuel (dropLine (c :: l))

/-- The number of bullet matches of a block. -/
def bulletCount (s : String) : Nat := bulletCountAux (s.data.length + 1) s.data

/-- `section_has_bullets(skill_text, heading_re, min_count)`. -/
def sectionHasBullets (text : String) (m : List String → Option Nat)
    (minCount : Nat) : Bool :=
  match sectionBlock text m with
  | none => false
  | some b => minCount ≤ bulletCount b

/-! ## The `[[BAGAKIT]]` footer checks (lines 616–617) -/

/-- A line matched by `(?m)^\[\[BAGAKIT\]\]\s*$`. -/
def anchorLine (line : String) : Bool :=
  startsChars "[[BAGAKIT]]".data line.data && wsOnly (line.data.drop 11)

/-- `re.search(r"(?m)^\[\[BAGAKIT\]\]\s*$", text)` as existence over the
`\n`-split lines. -/
def hasBagakitAnchor (text : String) : Bool :=
  (splitNl text).any anchorLine

/-- A peer line `- .+` (`- ` followed by at least one character). -/
def peerShaped (line : String) : Bool :=
  match line.data with
  | '-' :: ' ' :: _ :: _ => true
  | _ => false

/-- After an anchor line, `\s*\n(?:- .+\n)+` requires: skip whitespace-only
lines, then a newline-terminated peer line (the final unterminated segment
does not count — the peer group needs its trailing `\n`). -/
def peerFollows (rest : List String) : Bool :=
  match rest.dropWhile (fun l => wsOnly l.data) with
  | [] => false
  | m :: after => peerShaped m && after ≠ []

/-- `re.search(r"(?m)^\[\[BAGAKIT\]\]\s*\n(?:- .+\n)+", text)` as existence. -/
def hasPeerList : List String → Bool
  | [] => false
  | l :: rest => (anchorLine l && peerFollows rest) || hasPeerList rest

/-- `has_bagakit_peer_lines` of the descriptor text. -/
def hasBagakitPeerLines (text : String) : Bool :=
  hasPeerList (splitNl text)

/-! ## `parse_frontmatter` (lines 324–344) -/

/-- Insert-or-overwrite for the frontmatter dictionary: Python `dict`
assignment keeps the first-insertion position and replaces the value. -/
def dictInsert : List (String × String) → String → String → List (String × String)
  | [], k, v => [(k, v)]
  | (k0, v0) :: rest, k, v =>
    if k0 = k then (k0, v) :: rest else (k0, v0) :: dictInsert rest k v

/-- Lookup in the frontmatter dictionary (keys are unique). -/
def dictGet : List (String × String) → String → Option String
  | [], _ => none
  | (k0, v0) :: rest, k => if k0 = k then some v0 else dictGet rest k

/-- `value.strip().strip('"').strip("'")`. -/
def stripValue (v : List Char) : List Char :=
  stripCharBoth sqc (stripCharBoth '"' (stripChars v))

/-- The key/value loop of `parse_frontmatter` over the lines between the
delimiters. -/
def fmFold (acc : List (String × String) × List String) :
    List String → List (String × String) × List String
  | [] => acc
  | raw :: rest =>
    let line := pyStrip raw
    if line = "" then fmFold acc rest
    else if ¬ hasSub ":" line then
      fmFold (acc.1, acc.2 ++ ["invalid frontmatter line: " ++ raw]) rest
    else
      let k := line.data.takeWhile (· ≠ ':')
      let v := (line.data.dropWhile (· ≠ ':')).drop 1
      fmFold
        (dictInsert acc.1 (String.mk (stripChars k)) (String.mk (stripValue v)), acc.2)
        rest

/-- `parse_frontmatter(text)`: the key/value dictionary and the list of
structural errors. -/
def parseFrontmatter (text : String) : List (String × String) × List String :=
  let lines := pySplitlines text
  if lines.length < 3 || pyStrip (lines.headD "") ≠ "---" then
    ([], ["SKILL.md must start with YAML frontmatter (" ++ sqStr ++ "---" ++ sqStr
            ++ "); TOML frontmatter guidance applies to artifact metadata blocks"])
  else
    match (lines.drop 1).findIdx? (· = "---") with
    | none => ([], ["SKILL.md frontmatter is not closed with " ++ sqStr ++ "---" ++ sqStr])
    | some j => fmFold ([], []) ((lines.drop 1).take j)

/-! ## The manifest (`load_payload`, lines 347–356) -/

/-- A parsed JSON value (numbers are irrelevant to the validator and carry an
integer). -/
inductive JVal where
  | jnull : JVal
  | jbool : Bool → JVal
  | jnum : Int → JVal
  | jstr : String → JVal
  | jarr : List JVal → JVal
  | jobj : List (String × JVal) → JVal

/-- `dict.get(key)` on a parsed JSON object — `json.loads` builds a `dict`,
so a duplicated key keeps its last value. -/
def objLookup (v : JVal) (key : String) : Option JVal :=
  match v with
  | .jobj fields => fields.foldl (fun acc kv => if kv.1 = key then some kv.2 else acc) none
  | _ => none

/-- `isinstance(v, str)`. -/
def JVal.isStr : JVal → Bool
  | .jstr _ => true
  | _ => false

/-- The string payload of a `jstr` (defaulting without effect elsewhere). -/
def JVal.asStr : JVal → String
  | .jstr s => s
  | _ => ""

/-! ## The filesystem model -/

/-- The bundle directory as the validator observes it.  Paths inside the
bundle are bundle-relative POSIX strings; a string starting with `/` is an
absolute path (as produced by an absolute manifest `include` entry joined
to `skill_dir`), which the embedding reads as lying outside the bundle —
the resolved bundle directory is not the filesystem root.  `root` is the
absolute bundle path used only inside messages.

* `skillMd`/`payload` carry existence and content of the two required files
  (`payload` is the outcome of `json.loads`: `Except.error` for a
  `JSONDecodeError` with its rendered message).
* `rawUnder d` models `Path(root/d).rglob("*")` — every descendant of `d`
  in *unspecified order*; the validator sorts it (by `Path` parts order)
  wherever the source does.
* `content p` is `Path.read_text`: `none` models a `UnicodeDecodeError`
  (the only read failure the source handles; a file that disappears
  mid-run would raise, which the model does not represent). -/
structure SkillFS where
  root : String
  skillMd : Option String
  payload : Option (Except String JVal)
  pathExists : String → Bool
  isFile : String → Bool
  isDir : String → Bool
  rawUnder : String → List String
  content : String → Option String

/-- `load_payload` (lines 347–356): the parsed object and its errors. -/
def loadPayload (fs : SkillFS) : Option JVal × List String :=
  match fs.payload with
  | none => (none, ["missing file: " ++ fs.root ++ "/SKILL_PAYLOAD.json"])
  | some (.error e) =>
    (none, ["invalid json in " ++ fs.root ++ "/SKILL_PAYLOAD.json: " ++ e])
  | some (.ok v) =>
    match v with
    | .jobj fields => (some (.jobj fields), [])
    | _ => (none, ["payload root must be object: " ++ fs.root ++ "/SKILL_PAYLOAD.json"])

/-! ## `audit_runtime_files` (lines 443–481) -/

/-- `re.split(r"[-_]+", stem)` with empty pieces dropped: the non-empty
maximal chunks of characters that are neither hyphen nor underscore. -/
def stemTokens (l : List Char) : List String :=
  ((((splitOnCh '-' l).flatMap (splitOnCh '_'))).map String.mk).filter (· ≠ "")

/-- The per-file body of the `audit_runtime_files` loop: errors and warnings
for one file `rel` under runtime directory `dirname`. -/
def auditFile (dirname : String) (allowedExt : List String) (rel : String) :
    List String × List String :=
  let nm := lastSeg rel
  let stem := pathStemLower rel
  let suffix := pathSuffixLower rel
  let extWarn :=
    if suffix ≠ "" && suffix ∉ allowedExt then
      ["unexpected extension under " ++ dirname ++ ": " ++ rel]
    else []
  let stemErr :=
    if ¬ fileStemOk stem then
      ["file name must be lowercase/digits/hyphen/underscore only: " ++ rel]
    else []
  let genericErr :=
    if stem ∈ genericFileStems then
      ["file name is too generic (not self-explanatory): " ++ rel]
    else []
  let tokens := stemTokens stem.data
  let badTerms := sortedDedup (tokens.filter (· ∈ legacyTerms))
  let legacyErr :=
    if badTerms ≠ [] then
      ["file name contains legacy/workaround term ["
          ++ String.intercalate ", " (badTerms.map (fun t => sqStr ++ t ++ sqStr))
          ++ "]; rewrite to final-state naming: " ++ rel]
    else []
  let underscoreWarn :=
    if '_' ∈ nm.data then ["prefer hyphen-case file naming for clarity: " ++ rel]
    else []
  (stemErr ++ genericErr ++ legacyErr, extWarn ++ underscoreWarn)

/-- One runtime directory of `audit_runtime_files`: enumerate (sorted), keep
files, audit each. -/
def auditDir (pathEx : String → Bool) (isFile : String → Bool)
    (rawUnder : String → List String) (dirname : String) (allowedExt : List String) :
    List String × List String :=
  if ¬ pathEx dirname then ([], [])
  else
    let files := (sortPath (rawUnder dirname)).filter isFile
    (files.flatMap (fun p => (auditFile dirname allowedExt p).1),
     files.flatMap (fun p => (auditFile dirname allowedExt p).2))

/-- `audit_runtime_files`: the three runtime directories in the source's
dictionary order. -/
def auditRuntimeFiles (pathEx : String → Bool) (isFile : String → Bool)
    (rawUnder : String → List String) : List String × List String :=
  let s := auditDir pathEx isFile rawUnder "scripts" allowedScriptExtensions
  let c := auditDir pathEx isFile rawUnder referenceDirCanonical allowedReferenceExtensions
  let l := auditDir pathEx isFile rawUnder referenceDirLegacy allowedReferenceExtensions
  (s.1 ++ c.1 ++ l.1, s.2 ++ c.2 ++ l.2)

/-! ## `scan_absolute_path_literals` (lines 484–518) -/

/-- `add_target(path)`: keep a path when its name is `SKILL.md` or its
lowercased suffix is a text-like scan extension. -/
def addTarget (p : String) : List String :=
  if lastSeg p = "SKILL.md" || pathSuffixLower p ∈ absolutePathScanExtensions then [p]
  else []

/-- The scan roots: the manifest `include` when non-empty, otherwise the
fallback `[reference, references, agents]`. -/
def scanRoots (inc : List String) : List String :=
  if inc ≠ [] then inc
  else [referenceDirCanonical, referenceDirLegacy, "agents"]

/-- The target set of `scan_absolute_path_literals`, already sorted and
deduplicated (the source collects a `set` and iterates `sorted(targets)`).
`SKILL.md` is always offered to `add_target` first; each root contributes
itself when it is a file, or its (sorted) recursively-enumerated files. -/
def scanTargets (pathEx : String → Bool) (isFile : String → Bool)
    (rawUnder : String → List String) (inc : List String) : List String :=
  sortedDedupPath
    (addTarget "SKILL.md"
      ++ (scanRoots inc).flatMap (fun rel =>
        let p := normPath rel
        if ¬ pathEx p then []
        else if isFile p then addTarget p
        else ((sortPath (rawUnder p)).filter isFile).flatMap addTarget))

/-- The per-target loop body for a target under the bundle root: one error
per line containing an absolute path literal, or nothing if the file does
not decode as text.  For such a target `path.relative_to(skill_dir)
.as_posix()` is the target string `p` itself (also when `p` carries `..`
segments — `relative_to` is purely lexical).  For a decodable target
*outside* the bundle root the source instead raises an uncaught
`ValueError` at that line — see `scanFileExc`. -/
def scanFileErrors (content : String → Option String) (p : String) : List String :=
  match content p with
  | none => []
  | some txt =>
    (enumFrom 1 (pySplitlines txt)).filterMap (fun iv =>
      if lineAbsHit iv.2 then
        some (p ++ ":" ++ toString iv.1
          ++ " contains absolute path literal; use relative paths or env variables in generated files")
      else none)

/-- The per-target loop body with its exception behaviour.  `read_text`
runs first (an undecodable target is skipped by `except UnicodeDecodeError:
continue`); then `path.relative_to(skill_dir)` raises `ValueError` when the
target does not lie under the bundle root — in this embedding a target
string starting with `/`, as produced by an absolute manifest `include`
entry (the embedding reads relative strings as bundle-root-relative and
absolute strings as outside the bundle, the resolved bundle directory not
being the filesystem root).  Nothing in `cmd_validate` catches the
exception. -/
def scanFileExc (content : String → Option String) (p : String) :
    Except Unit (List String) :=
  match content p with
  | none => .ok []
  | some _ =>
    if strStarts "/" p then .error ()
    else .ok (scanFileErrors content p)

/-- The scan loop over the sorted targets: per-target errors accumulate
until the first decodable out-of-root target, whose `relative_to` raise
aborts the whole run. -/
def scanLoopExc (content : String → Option String) :
    List String → Except Unit (List String)
  | [] => .ok []
  | p :: ps =>
    match scanFileExc content p with
    | .error e => .error e
    | .ok es =>
      match scanLoopExc content ps with
      | .error e => .error e
      | .ok rest => .ok (es ++ rest)

/-- `scan_absolute_path_literals(skill_dir, include)` with its exception
behaviour. -/
def scanAbsolutePathLiteralsExc (pathEx : String → Bool) (isFile : String → Bool)
    (rawUnder : String → List String) (content : String → Option String)
    (inc : List String) : Except Unit (List String) :=
  scanLoopExc content (scanTargets pathEx isFile rawUnder inc)

/-- The error list of a `scan_absolute_path_literals` run in which no
target raises (every decodable target inside the bundle root);
`scanLoopExc` returns exactly this list whenever it succeeds. -/
def scanAbsolutePathLiterals (pathEx : String → Bool) (isFile : String → Bool)
    (rawUnder : String → List String) (content : String → Option String)
    (inc : List String) : List String :=
  (scanTargets pathEx isFile rawUnder inc).flatMap (scanFileErrors content)

/-! ## The manifest-`include` rule block of `cmd_validate` (lines 570–609) -/

/-- A structured blocking diagnostic of the `include` block. -/
inductive IncDiag where
  | dupItems : IncDiag
  | mustContainSkill : IncDiag
  | mustNotReadme : IncDiag
  | stayInside : String → IncDiag
  | missingOnDisk : String → IncDiag
  | missDir : String → IncDiag
deriving DecidableEq

/-- The message of an `include`-block blocking diagnostic. -/
def renderInc : IncDiag → String
  | .dupItems => "SKILL_PAYLOAD.json include contains duplicate items"
  | .mustContainSkill => "SKILL_PAYLOAD.json include must contain SKILL.md"
  | .mustNotReadme => "SKILL_PAYLOAD.json include must not contain README.md"
  | .stayInside p => "payload path must stay inside skill directory: " ++ p
  | .missingOnDisk p => "payload path missing on disk: " ++ p
  | .missDir d => "payload includes missing directory: " ++ d

/-- The per-entry check of the `include` loop (lines 580–585): an absolute or
parent-escaping entry gets the stay-inside error and `continue` skips the
on-disk existence test; otherwise only a missing path is reported. -/
def includeEntryDiags (pathEx : String → Bool) (p : String) : List IncDiag :=
  if strStarts "/" p || ".." ∈ pathSegs p then [.stayInside p]
  else if ¬ pathEx (normPath p) then [.missingOnDisk p]
  else []

/-- The whole `if include:` block (lines 570–609): blocking diagnostics in
source order, and the advisory warnings as strings. -/
def includeChecks (pathEx : String → Bool) (isDir : String → Bool)
    (inc : List String) : List IncDiag × List String :=
  if inc = [] then ([], [])
  else
    let hasC := pathEx referenceDirCanonical
    let hasL := pathEx referenceDirLegacy
    let hasRefInclude :=
      referenceDirCanonical ∈ inc || referenceDirLegacy ∈ inc
    let errs :=
      (if inc.dedup.length ≠ inc.length then [IncDiag.dupItems] else [])
        ++ (if "SKILL.md" ∉ inc then [IncDiag.mustContainSkill] else [])
        ++ (if "README.md" ∈ inc then [IncDiag.mustNotReadme] else [])
        ++ inc.flatMap (includeEntryDiags pathEx)
        ++ (["scripts", "agents"].flatMap (fun d =>
              if d ∈ inc && ¬ pathEx d then [IncDiag.missDir d] else []))
        ++ (if referenceDirCanonical ∈ inc && ¬ hasC then
              [IncDiag.missDir referenceDirCanonical] else [])
        ++ (if referenceDirLegacy ∈ inc && ¬ hasL then
              [IncDiag.missDir referenceDirLegacy] else [])
    let warns :=
      (["scripts", "agents"].flatMap (fun d =>
          if pathEx d && d ∉ inc then
            ["directory exists but not included in payload: " ++ d]
          else []))
        ++ (if (hasC || hasL) && ¬ hasRefInclude then
              ["directory exists but not included in payload: "
                ++ referenceDirCanonical ++ "/" ++ referenceDirLegacy]
            else [])
        ++ (if hasC && ¬ isDir "reference/tpl" then
              ["reference layout should include reference/tpl for reusable templates"]
            else [])
        ++ (if hasL && ¬ hasC then
              ["legacy references/ layout detected; prefer reference/ with reference/tpl"]
            else [])
        ++ (if hasC && hasL then
              ["both reference/ and references/ exist; prefer one canonical layout (reference/ + reference/tpl)"]
            else [])
    (errs, warns)

/-! ## `cmd_validate` (lines 521–734) -/

/-- The descriptor text (`skill_md.read_text()`; only consulted after the
existence gate, so the default never surfaces). -/
def skillText (fs : SkillFS) : String := fs.skillMd.getD ""

/-- `fm.get("name", "")`. -/
def fmName (text : String) : String :=
  (dictGet (parseFrontmatter text).1 "name").getD ""

/-- `fm.get("description", "")`. -/
def fmDescription (text : String) : String :=
  (dictGet (parseFrontmatter text).1 "description").getD ""

/-- The frontmatter/header blocking checks of `cmd_validate`
(lines 538–556), in source order. -/
def headerErrors (text : String) : List String :=
  let fm := (parseFrontmatter text).1
  let fmErrs := (parseFrontmatter text).2
  let unknown := sortStr ((fm.map Prod.fst).filter (fun k => k ∉ ["name", "description"]))
  let name := fmName text
  let description := fmDescription text
  fmErrs
    ++ (if unknown ≠ [] then
          ["frontmatter has unsupported keys: " ++ String.intercalate ", " unknown]
        else [])
    ++ (if name = "" then ["frontmatter missing required key: name"]
        else if ¬ nameOk name then
          ["frontmatter name is invalid; expected lowercase letters/digits/hyphens, max 64 chars"]
        else [])
    ++ (if description = "" then ["frontmatter missing required key: description"]
        else if placeholderHints.any (fun h => hasSub h description) then
          ["frontmatter description still looks like placeholder text"]
        else if ¬ descTriggerHit (lowerStr description) then
          ["frontmatter description should include clear trigger wording (e.g. "
            ++ sqStr ++ "use when ..." ++ sqStr ++ ")"]
        else [])

/-- The description-length advisory check (lines 557–558). -/
def headerWarnings (text : String) : List String :=
  let description := fmDescription text
  if description ≠ "" && description.length < 40 then
    ["frontmatter description may be too short for accurate triggering"]
  else []

/-- The validated `include` list (lines 562–568): the manifest's `include`
when it is an array of strings, `[]` otherwise. -/
def includeOf (payloadOpt : Option JVal) : List String :=
  match payloadOpt with
  | none => []
  | some v =>
    match objLookup v "include" with
    | some (.jarr els) => if els.all JVal.isStr then els.map JVal.asStr else []
    | _ => []

/-- The `include`-typing error (lines 564–566): reported whenever the loaded
payload lacks an `include` array of strings. -/
def includeTypeErrors (payloadOpt : Option JVal) : List String :=
  match payloadOpt with
  | none => []
  | some v =>
    match objLookup v "include" with
    | some (.jarr els) =>
      if els.all JVal.isStr then []
      else ["SKILL_PAYLOAD.json include must be an array of strings"]
    | _ => ["SKILL_PAYLOAD.json include must be an array of strings"]

/-- The structural blocking checks on the descriptor body
(lines 611–657), in source order. -/
def structureErrors (text : String) (name : String) : List String :=
  let lineCount := (pySplitlines text).length
  let isSeries := name ≠ "" && strStarts "bagakit-" name
  let hasAnchor := hasBagakitAnchor text
  (if lineCount > maxSkillLines then
      ["SKILL.md must stay within " ++ toString maxSkillLines
        ++ " lines (current=" ++ toString lineCount ++ ")"]
    else [])
    ++ (if ¬ hasAnchor then
          (if isSeries then
            ["SKILL.md must define [[BAGAKIT]] footer contract for bagakit-* skills"]
          else [])
        else if isSeries && ¬ hasBagakitPeerLines text then
          ["bagakit-* skills must keep canonical [[BAGAKIT]] format: anchor line followed by peer "
            ++ sqStr ++ "- ..." ++ sqStr ++ " lines"]
        else [])
    ++ (if ¬ hasSub "standalone" (lowerStr text) then
          ["SKILL.md must state standalone-first design explicitly"]
        else [])
    ++ (if ¬ (hasSub "optional" (lowerStr text)
            && ["contract", "schema", "signal", "契约", "信号"].any
                 (fun k => hasSub k (lowerStr text))) then
          ["SKILL.md must describe optional cross-skill contract/signal exchange"]
        else [])
    ++ (if ¬ hasSub "## Workflow" text then
          ["SKILL.md must include a " ++ sqStr ++ "## Workflow" ++ sqStr ++ " section"]
        else [])
    ++ (if ¬ sectionHasBullets text whenToUseHead 2 then
          ["SKILL.md must include " ++ sqStr ++ "## When to Use" ++ sqStr
            ++ " section with at least 2 bullet items"]
        else [])
    ++ (if ¬ sectionHasBullets text whenNotToUseHead 2 then
          ["SKILL.md must include " ++ sqStr ++ "## When NOT to Use" ++ sqStr
            ++ " section with at least 2 bullet items"]
        else [])
    ++ (if ¬ sectionHasBullets text fallbackHead 1 then
          ["SKILL.md must include a fallback section with at least 1 bullet action"]
        else [])
    ++ (if ¬ sectionHasBullets text outputHead 2 then
          ["SKILL.md must include output routes/default section with at least 2 bullet items"]
        else [])
    ++ (if ¬ sectionHasBullets text archiveHead 1 then
          ["SKILL.md must include archive gate/hand-off section with at least 1 bullet action"]
        else [])

/-- The generic-mode footer advisory (lines 621–624). -/
def footerWarnings (text : String) (name : String) : List String :=
  let isSeries := name ≠ "" && strStarts "bagakit-" name
  if ¬ hasBagakitAnchor text && ¬ isSeries then
    ["SKILL.md has no [[BAGAKIT]] footer contract; this is fine for generic mode, but required if Bagakit profile is enabled"]
  else []

/-- The output-routes section content checks (lines 659–692): blocking and
advisory diagnostics.  `if output_block:` is Python truthiness, so an empty
block is skipped. -/
def outputSectionDiags (text : String) : List String × List String :=
  match sectionBlock text outputHead with
  | none => ([], [])
  | some b =>
    if b = "" then ([], [])
    else
      let ol := lowerStr b
      let hasAd := adapterHints.any (fun t => hasSub t ol)
      let hasNoAd := noAdapterHints.any (fun t => hasSub t ol)
      let hasConc := concreteAdapterHints.any (fun t => hasSub t ol)
      let hasGen := genericAdapterHints.any (fun t => hasSub t ol)
      ((if ¬ hasSub "default" ol then
            ["output section must explicitly mention default route behavior"]
          else [])
        ++ (if ¬ (hasAd || hasNoAd) then
              ["output section must declare adapter policy: optional adapter routes or explicit standalone/no-adapter statement"]
            else [])
        ++ (if ¬ actionHints.any (fun t => hasSub t ol) then
              ["output section must define an action handoff output"]
            else [])
        ++ (if ¬ (memoryHints.any (fun t => hasSub t ol)
                || memoryNoneHints.any (fun t => hasSub t ol)) then
              ["output section must define a memory/summary handoff output (or explicit none rationale)"]
            else []),
       (if hasAd && ¬ hasSub "optional" ol && ¬ hasSub "可选" ol then
            ["adapter routes should be marked optional to preserve standalone-first behavior"]
          else [])
        ++ (if hasConc && ¬ hasGen then
              ["output routing appears concrete-name-bound; describe generic adapter classes/capability rules first, then map concrete systems as optional profile examples"]
            else [])
        ++ (if hasSub "only when no" ol && hasSub "detected" ol then
              ["fallback wording is too narrow; cover no external driver usable (not detected / unresolved / invalid contract)"]
            else [])
        ++ (if ¬ archetypeHints.any (fun t => hasSub t ol) then
              ["output section should classify deliverable archetype/type"]
            else []))

/-- The archive-gate section content checks (lines 694–710). -/
def archiveSectionDiags (text : String) : List String × List String :=
  match sectionBlock text archiveHead with
  | none => ([], [])
  | some b =>
    if b = "" then ([], [])
    else
      let al := lowerStr b
      ((if ¬ archiveHints.any (fun t => hasSub t al) then
            ["archive section must explicitly include destination path/id evidence"]
          else [])
        ++ (if ¬ actionHints.any (fun t => hasSub t al) then
              ["archive section must mention action handoff destination"]
            else [])
        ++ (if ¬ (memoryHints.any (fun t => hasSub t al)
                || memoryNoneHints.any (fun t => hasSub t al)) then
              ["archive section must mention memory handoff destination (or explicit none rationale)"]
            else []),
       if ¬ completionHints.any (fun t => hasSub t al) then
         ["archive section should state completion gate conditions explicitly"]
       else [])

/-- All blocking diagnostics collected before the absolute-path scan runs
(`cmd_validate` lines 537–716), in the exact append order of the source. -/
def collectErrorsPre (fs : SkillFS) : List String :=
  let text := skillText fs
  let payloadOpt := (loadPayload fs).1
  let inc := includeOf payloadOpt
  headerErrors text
    ++ (loadPayload fs).2
    ++ includeTypeErrors payloadOpt
    ++ ((includeChecks fs.pathExists fs.isDir inc).1.map renderInc)
    ++ structureErrors text (fmName text)
    ++ (outputSectionDiags text).1
    ++ (archiveSectionDiags text).1
    ++ scanHardCoupling text (fmName text)
    ++ (auditRuntimeFiles fs.pathExists fs.isFile fs.rawUnder).1

/-- The exception outcome of the absolute-path scan pass inside
`cmd_validate` (line 717). -/
def scanExcOf (fs : SkillFS) : Except Unit (List String) :=
  scanAbsolutePathLiteralsExc fs.pathExists fs.isFile fs.rawUnder fs.content
    (includeOf (loadPayload fs).1)

/-- All blocking diagnostics of a run whose scan pass raises no exception
(`cmd_validate` lines 537–717), in the exact append order of the source. -/
def collectErrors (fs : SkillFS) : List String :=
  collectErrorsPre fs
    ++ scanAbsolutePathLiterals fs.pathExists fs.isFile fs.rawUnder fs.content
        (includeOf (loadPayload fs).1)

/-- All advisory diagnostics collected once both required files exist, in the
exact append order of the source (lines 557–722). -/
def collectWarnings (fs : SkillFS) : List String :=
  let text := skillText fs
  let inc := includeOf (loadPayload fs).1
  headerWarnings text
    ++ (includeChecks fs.pathExists fs.isDir inc).2
    ++ footerWarnings text (fmName text)
    ++ (outputSectionDiags text).2
    ++ (archiveSectionDiags text).2
    ++ scanMetadataContractSignals text
    ++ (auditRuntimeFiles fs.pathExists fs.isFile fs.rawUnder).2
    ++ (if hasSub "bash .bagakit/" text then
          ["SKILL.md contains direct " ++ sqStr ++ ".bagakit" ++ sqStr
            ++ " script call; ensure this is optional and not a hard dependency"]
        else [])

/-- The fail-fast existence gate (lines 526–535). -/
def missingFileErrors (fs : SkillFS) : List String :=
  (if fs.skillMd.isNone then ["missing file: " ++ fs.root ++ "/SKILL.md"] else [])
    ++ (if fs.payload.isNone then
          ["missing file: " ++ fs.root ++ "/SKILL_PAYLOAD.json"]
        else [])

/-- An output channel of the validator process. -/
inductive VChan where
  | out : VChan
  | err : VChan
deriving DecidableEq

/-- The observable outcome of one `validate` run: a finished process with
its printed transcript (channel-tagged lines in print order) and exit
status, or an abort by the uncaught `ValueError` from `relative_to` — a
traceback instead of a transcript, with none of the collected diagnostics
printed. -/
inductive VOutcome where
  | finished : List (VChan × String) → Nat → VOutcome
  | crashed : VOutcome
deriving DecidableEq

/-- `cmd_validate(args)`.  When either required file is missing the
collected errors are printed and the command returns 1 immediately.
Otherwise every rule runs; if the absolute-path scan raises, the run
crashes before anything is printed (the `print` loops sit after line 717).
On a normal run warnings print (stdout) before errors (stderr), and on
success an `ok` line plus — if any warnings occurred — a `warn_count` line
conclude the transcript. -/
def cmdValidate (fs : SkillFS) : VOutcome :=
  let missing := missingFileErrors fs
  if missing ≠ [] then
    .finished (missing.map (fun e => (VChan.err, "error: " ++ e))) 1
  else
    match scanExcOf fs with
    | .error _ => .crashed
    | .ok scanErrs =>
      let errors := collectErrorsPre fs ++ scanErrs
      let warnings := collectWarnings fs
      .finished
        (warnings.map (fun w => (VChan.out, "warn: " ++ w))
          ++ (if errors ≠ [] then errors.map (fun e => (VChan.err, "error: " ++ e))
              else
                (VChan.out, "ok: skill validation passed")
                  :: (if warnings ≠ [] then
                        [(VChan.out, "warn_count=" ++ toString warnings.length)]
                      else [])))
        (if errors ≠ [] then 1 else 0)

/-- The blocking diagnostics of one `validate` run (the missing-file errors
on the fail-fast path, the full rule set otherwise). -/
def validateErrors (fs : SkillFS) : List String :=
  if missingFileErrors fs ≠ [] then missingFileErrors fs else collectErrors fs

/-- The advisory diagnostics of one `validate` run (none on the fail-fast
path). -/
def validateWarnings (fs : SkillFS) : List String :=
  if missingFileErrors fs ≠ [] then [] else collectWarnings fs

/-! ## Example bundles used as concrete inputs in the proofs -/

/-- A bundle whose manifest `include` is the empty array (and whose
descriptor is empty): the `if include:` guard of the source skips the whole
include block for it. -/
def exampleEmptyIncludeFS : SkillFS where
  root := "/b"
  skillMd := some ""
  payload := some (.ok (.jobj [("include", .jarr [])]))
  pathExists := fun _ => false
  isFile := fun _ => false
  isDir := fun _ => false
  rawUnder := fun _ => []
  content := fun p => if p = "SKILL.md" then some "" else none

/-- A bundle whose manifest `include` duplicates `SKILL.md`. -/
def exampleDupIncludeFS : SkillFS where
  root := "/b"
  skillMd := some ""
  payload := some (.ok (.jobj [("include", .jarr [.jstr "SKILL.md", .jstr "SKILL.md"])]))
  pathExists := fun p => p = "SKILL.md"
  isFile := fun p => p = "SKILL.md"
  isDir := fun _ => false
  rawUnder := fun _ => []
  content := fun p => if p = "SKILL.md" then some "" else none

/-- A bundle whose reference directory holds two files, enumerated in
non-sorted order. -/
def examplePermFSa : SkillFS where
  root := "/b"
  skillMd := some ""
  payload := some (.ok (.jobj [("include", .jarr [])]))
  pathExists := fun p => p = "reference"
  isFile := fun p => p = "reference/a.md" || p = "reference/b.md"
  isDir := fun _ => false
  rawUnder := fun d => if d = "reference" then ["reference/b.md", "reference/a.md"] else []
  content := fun _ => none

/-- The same bundle with the enumeration in the opposite order. -/
def examplePermFSb : SkillFS where
  root := "/b"
  skillMd := some ""
  payload := some (.ok (.jobj [("include", .jarr [])]))
  pathExists := fun p => p = "reference"
  isFile := fun p => p = "reference/a.md" || p = "reference/b.md"
  isDir := fun _ => false
  rawUnder := fun d => if d = "reference" then ["reference/a.md", "reference/b.md"] else []
  content := fun _ => none

/-- A bundle with both required files whose manifest `include` holds an
absolute entry naming an existing decodable `.md` file outside the bundle:
scanning it reaches `path.relative_to(skill_dir)`, which raises. -/
def exampleAbsIncludeFS : SkillFS where
  root := "/b"
  skillMd := some ""
  payload := some (.ok (.jobj [("include", .jarr [.jstr "/tmp/x.md"])]))
  pathExists := fun p => p = "/tmp/x.md"
  isFile := fun p => p = "/tmp/x.md"
  isDir := fun _ => false
  rawUnder := fun _ => []
  content := fun p => if p = "SKILL.md" || p = "/tmp/x.md" then some "" else none

/-! ## Order lemmas for `sortStr`: Python's `sorted` output is determined by
the multiset of its input, which is what makes the validator's diagnostics
independent of filesystem enumeration order. -/

theorem leChars_total (a b : List Char) : leChars a b = true ∨ leChars b a = true := by
  induction a generalizing b with
  | nil => left; rfl
  | cons x xs ih =>
    cases b with
    | nil => right; rfl
    | cons y ys =>
      by_cases hxy : x.toNat < y.toNat
      · left; simp [leChars, hxy]
      · by_cases hyx : y.toNat < x.toNat
        · right; simp [leChars, hyx]
        · rcases ih ys with h | h
          · left; simp [leChars, hxy, hyx, h]
          · right; simp [leChars, hxy, hyx, h]

theorem leChars_cons_iff {x y : Char} {xs ys : List Char} :
    leChars (x :: xs) (y :: ys) = true
      ↔ x.toNat < y.toNat ∨ (x.toNat = y.toNat ∧ leChars xs ys = true) := by
  simp only [leChars]
  by_cases hxy : x.toNat < y.toNat <;> by_cases hyx : y.toNat < x.toNat <;>
    simp [hxy, hyx] <;> omega

theorem leChars_antisymm {a b : List Char} (hab : leChars a b = true)
    (hba : leChars b a = true) : a = b := by
  induction a generalizing b with
  | nil =>
    cases b with
    | nil => rfl
    | cons y ys => simp [leChars] at hba
  | cons x xs ih =>
    cases b with
    | nil => simp [leChars] at hab
    | cons y ys =>
      rw [leChars_cons_iff] at hab hba
      rcases hab with h1 | ⟨h1, h1'⟩ <;> rcases hba with h2 | ⟨h2, h2'⟩ <;>
        try omega
      have hxy : x = y := by
        have h : x.toNat = y.toNat := by omega
        exact Char.ext (UInt32.ext h)
      subst hxy
      exact congrArg (x :: ·) (ih h1' h2')

theorem leChars_trans {a b c : List Char} (hab : leChars a b = true)
    (hbc : leChars b c = true) : leChars a c = true := by
  induction a generalizing b c with
  | nil => rfl
  | cons x xs ih =>
    cases b with
    | nil => simp [leChars] at hab
    | cons y ys =>
      cases c with
      | nil => simp [leChars] at hbc
      | cons z zs =>
        rw [leChars_cons_iff] at hab hbc ⊢
        rcases hab with h1 | ⟨h1, h1'⟩ <;> rcases hbc with h2 | ⟨h2, h2'⟩
        · exact Or.inl (Nat.lt_trans h1 h2)
        · exact Or.inl (by omega)
        · exact Or.inl (by omega)
        · exact Or.inr ⟨by omega, ih h1' h2'⟩

/-- The sorting relation on strings as a proposition. -/
def SLe (a b : String) : Prop := strLe a b = true

theorem strLe_total (a b : String) : strLe a b = true ∨ strLe b a = true :=
  leChars_total a.data b.data

theorem strLe_antisymm {a b : String} (h1 : strLe a b = true)
    (h2 : strLe b a = true) : a = b :=
  String.ext (leChars_antisymm h1 h2)

theorem strLe_trans {a b c : String} (h1 : strLe a b = true)
    (h2 : strLe b c = true) : strLe a c = true :=
  leChars_trans h1 h2

theorem insertStr_perm (x : String) (l : List String) :
    (insertStr x l).Perm (x :: l) := by
  induction l with
  | nil => exact List.Perm.refl _
  | cons y ys ih =>
    simp only [insertStr]
    split
    · exact List.Perm.refl _
    · exact (ih.cons y).trans (List.Perm.swap x y ys)

theorem sortStr_perm (l : List String) : (sortStr l).Perm l := by
  induction l with
  | nil => exact List.Perm.refl _
  | cons x xs ih => exact (insertStr_perm x (sortStr xs)).trans (ih.cons x)

theorem insertStr_sorted (x : String) :
    ∀ {l : List String}, l.Sorted SLe → (insertStr x l).Sorted SLe := by
  intro l h
  induction l with
  | nil => simp [insertStr, SLe]
  | cons y ys ih =>
    simp only [insertStr]
    split
    · rename_i hxy
      rw [List.sorted_cons]
      refine ⟨?_, h⟩
      intro b hb
      rcases List.mem_cons.mp hb with rfl | hb'
      · exact hxy
      · exact strLe_trans hxy ((List.sorted_cons.mp h).1 b hb')
    · rename_i hxy
      rw [List.sorted_cons] at h ⊢
      refine ⟨?_, ih h.2⟩
      intro b hb
      rcases List.mem_cons.mp ((insertStr_perm x ys).mem_iff.mp hb) with rfl | hb'
      · rcases strLe_total y b with hyb | hby
        · exact hyb
        · exact absurd hby hxy
      · exact h.1 b hb'

theorem sortStr_sorted (l : List String) : (sortStr l).Sorted SLe := by
  induction l with
  | nil => simp [sortStr]
  | cons x xs ih => exact insertStr_sorted x ih

/-- The key determinism fact: sorting is a function of the input multiset. -/
theorem sortStr_eq_of_perm {l₁ l₂ : List String} (h : l₁.Perm l₂) :
    sortStr l₁ = sortStr l₂ :=
  haveI : IsAntisymm String SLe := ⟨fun _ _ h1 h2 => strLe_antisymm h1 h2⟩
  List.eq_of_perm_of_sorted
    ((sortStr_perm l₁).trans (h.trans (sortStr_perm l₂).symm))
    (sortStr_sorted l₁) (sortStr_sorted l₂)

theorem mem_sortStr {x : String} {l : List String} : x ∈ sortStr l ↔ x ∈ l :=
  (sortStr_perm l).mem_iff

theorem mem_dedupAdj {x : String} : ∀ {l : List String}, x ∈ dedupAdj l ↔ x ∈ l := by
  intro l
  induction l with
  | nil => simp [dedupAdj]
  | cons y ys ih =>
    cases ys with
    | nil => simp [dedupAdj]
    | cons z zs =>
      simp only [dedupAdj]
      split
      · rename_i hyz
        subst hyz
        rw [ih]
        simp
      · rw [List.mem_cons, ih]
        simp

theorem sortedDedup_eq_of_perm {l₁ l₂ : List String} (h : l₁.Perm l₂) :
    sortedDedup l₁ = sortedDedup l₂ := by
  unfold sortedDedup
  rw [sortStr_eq_of_perm h]

theorem mem_sortedDedup {x : String} {l : List String} :
    x ∈ sortedDedup l ↔ x ∈ l := by
  unfold sortedDedup
  rw [mem_dedupAdj, mem_sortStr]

/-! ## Order lemmas for `pathLe` / `sortPath`: Python's `sorted` over `Path`
objects is likewise determined by the multiset of its input. -/

theorem cmpChars_eq_iff : ∀ {a b : List Char}, cmpChars a b = .eq ↔ a = b := by
  intro a
  induction a with
  | nil => intro b; cases b <;> simp [cmpChars]
  | cons x xs ih =>
    intro b
    cases b with
    | nil => simp [cmpChars]
    | cons y ys =>
      by_cases h1 : x.toNat < y.toNat
      · have hxy : x ≠ y := fun h => by subst h; omega
        simp [cmpChars, h1, hxy]
      · by_cases h2 : y.toNat < x.toNat
        · have hxy : x ≠ y := fun h => by subst h; omega
          simp [cmpChars, h1, h2, hxy]
        · have hn : x.toNat = y.toNat := by omega
          have hxy : x = y := by
            have hv : x.val.toNat = y.val.toNat := hn
            exact Char.ext (UInt32.ext hv)
          subst hxy
          simp [cmpChars, h1, h2, ih]

theorem cmpChars_swap : ∀ (a b : List Char), cmpChars b a = (cmpChars a b).swap := by
  intro a
  induction a with
  | nil => intro b; cases b <;> simp [cmpChars, Ordering.swap]
  | cons x xs ih =>
    intro b
    cases b with
    | nil => simp [cmpChars, Ordering.swap]
    | cons y ys =>
      simp only [cmpChars]
      by_cases h1 : x.toNat < y.toNat
      · have h2 : ¬ y.toNat < x.toNat := by omega
        simp [h1, h2, Ordering.swap]
      · by_cases h2 : y.toNat < x.toNat
        · simp [h1, h2, Ordering.swap]
        · simp [h1, h2, ih]

theorem cmpChars_lt_trans : ∀ {a b c : List Char},
    cmpChars a b = .lt → cmpChars b c = .lt → cmpChars a c = .lt := by
  intro a
  induction a with
  | nil =>
    intro b c hab hbc
    cases b with
    | nil => simp [cmpChars] at hab
    | cons y ys =>
      cases c with
      | nil => simp [cmpChars] at hbc
      | cons z zs => simp [cmpChars]
  | cons x xs ih =>
    intro b c hab hbc
    cases b with
    | nil => simp [cmpChars] at hab
    | cons y ys =>
      cases c with
      | nil => simp [cmpChars] at hbc
      | cons z zs =>
        simp only [cmpChars] at hab hbc ⊢
        by_cases h1 : x.toNat < y.toNat
        · by_cases h2 : y.toNat < z.toNat
          · simp [show x.toNat < z.toNat by omega]
          · by_cases h3 : z.toNat < y.toNat
            · simp [h2, h3] at hbc
            · simp [show x.toNat < z.toNat by omega]
        · by_cases h1' : y.toNat < x.toNat
          · simp [h1, h1'] at hab
          · by_cases h2 : y.toNat < z.toNat
            · simp [show x.toNat < z.toNat by omega]
            · by_cases h3 : z.toNat < y.toNat
              · simp [h2, h3] at hbc
              · simp [h1, h1'] at hab
                simp [h2, h3] at hbc
                have hx : ¬ x.toNat < z.toNat := by omega
                have hz : ¬ z.toNat < x.toNat := by omega
                simp [hx, hz]
                exact ih hab hbc

theorem cmpSegs_eq_iff : ∀ {a b : List String}, cmpSegs a b = .eq ↔ a = b := by
  intro a
  induction a with
  | nil => intro b; cases b <;> simp [cmpSegs]
  | cons x xs ih =>
    intro b
    cases b with
    | nil => simp [cmpSegs]
    | cons y ys =>
      simp only [cmpSegs]
      cases h : cmpChars x.data y.data with
      | lt =>
        have hxy : x ≠ y := by
          intro he
          subst he
          rw [cmpChars_eq_iff.mpr rfl] at h
          exact absurd h (by simp)
        simp [hxy]
      | gt =>
        have hxy : x ≠ y := by
          intro he
          subst he
          rw [cmpChars_eq_iff.mpr rfl] at h
          exact absurd h (by simp)
        simp [hxy]
      | eq =>
        have hxy : x = y := String.ext (cmpChars_eq_iff.mp h)
        subst hxy
        simp [ih]

theorem cmpSegs_swap : ∀ (a b : List String), cmpSegs b a = (cmpSegs a b).swap := by
  intro a
  induction a with
  | nil => intro b; cases b <;> simp [cmpSegs, Ordering.swap]
  | cons x xs ih =>
    intro b
    cases b with
    | nil => simp [cmpSegs, Ordering.swap]
    | cons y ys =>
      simp only [cmpSegs]
      rw [cmpChars_swap x.data y.data]
      cases h : cmpChars x.data y.data with
      | lt => simp [Ordering.swap]
      | gt => simp [Ordering.swap]
      | eq => simp [Ordering.swap, ih]

theorem cmpSegs_lt_trans : ∀ {a b c : List String},
    cmpSegs a b = .lt → cmpSegs b c = .lt → cmpSegs a c = .lt := by
  intro a
  induction a with
  | nil =>
    intro b c hab hbc
    cases b with
    | nil => simp [cmpSegs] at hab
    | cons y ys =>
      cases c with
      | nil => simp [cmpSegs] at hbc
      | cons z zs => simp [cmpSegs]
  | cons x xs ih =>
    intro b c hab hbc
    cases b with
    | nil => simp [cmpSegs] at hab
    | cons y ys =>
      cases c with
      | nil => simp [cmpSegs] at hbc
      | cons z zs =>
        simp only [cmpSegs] at hab hbc ⊢
        cases hxy : cmpChars x.data y.data with
        | gt => rw [hxy] at hab; exact absurd hab (by simp)
        | lt =>
          rw [hxy] at hab
          cases hyz : cmpChars y.data z.data with
          | gt => rw [hyz] at hbc; exact absurd hbc (by simp)
          | lt => rw [cmpChars_lt_trans hxy hyz]
          | eq =>
            have : y = z := String.ext (cmpChars_eq_iff.mp hyz)
            subst this
            rw [hxy]
        | eq =>
          have : x = y := String.ext (cmpChars_eq_iff.mp hxy)
          subst this
          rw [hxy] at hab
          cases hyz : cmpChars x.data z.data with
          | gt => rw [hyz] at hbc; exact absurd hbc (by simp)
          | lt => rfl
          | eq =>
            rw [hyz] at hbc
            exact ih hab hbc

/-- `pathLe` as a relation, for `List.Sorted`. -/
def PLe (a b : String) : Prop := pathLe a b = true

theorem pathLe_total (a b : String) : pathLe a b = true ∨ pathLe b a = true := by
  unfold pathLe
  rw [cmpSegs_swap (pathSegs a) (pathSegs b)]
  cases h : cmpSegs (pathSegs a) (pathSegs b) with
  | lt => left; rfl
  | gt => right; rfl
  | eq => simpa [Ordering.swap] using strLe_total a b

theorem pathLe_antisymm {a b : String} (h1 : pathLe a b = true)
    (h2 : pathLe b a = true) : a = b := by
  unfold pathLe at h1 h2
  rw [cmpSegs_swap (pathSegs a) (pathSegs b)] at h2
  cases h : cmpSegs (pathSegs a) (pathSegs b) with
  | lt => rw [h] at h2; simp [Ordering.swap] at h2
  | gt => rw [h] at h1; simp at h1
  | eq =>
    rw [h] at h1 h2
    exact strLe_antisymm h1 h2

theorem pathLe_trans {a b c : String} (h1 : pathLe a b = true)
    (h2 : pathLe b c = true) : pathLe a c = true := by
  unfold pathLe at h1 h2 ⊢
  cases hab : cmpSegs (pathSegs a) (pathSegs b) with
  | gt => rw [hab] at h1; simp at h1
  | lt =>
    rw [hab] at h1
    cases hbc : cmpSegs (pathSegs b) (pathSegs c) with
    | gt => rw [hbc] at h2; simp at h2
    | lt => rw [cmpSegs_lt_trans hab hbc]
    | eq =>
      have hseg : pathSegs b = pathSegs c := cmpSegs_eq_iff.mp hbc
      rw [← hseg, hab]
  | eq =>
    have hseg : pathSegs a = pathSegs b := cmpSegs_eq_iff.mp hab
    rw [hab] at h1
    cases hbc : cmpSegs (pathSegs b) (pathSegs c) with
    | gt => rw [hbc] at h2; simp at h2
    | lt => rw [hseg, hbc]
    | eq =>
      rw [hbc] at h2
      rw [hseg, hbc]
      exact strLe_trans h1 h2

theorem insertPath_perm (x : String) (l : List String) :
    (insertPath x l).Perm (x :: l) := by
  induction l with
  | nil => exact List.Perm.refl _
  | cons y ys ih =>
    simp only [insertPath]
    split
    · exact List.Perm.refl _
    · exact (ih.cons y).trans (List.Perm.swap x y ys)

theorem sortPath_perm (l : List String) : (sortPath l).Perm l := by
  induction l with
  | nil => exact List.Perm.refl _
  | cons x xs ih => exact (insertPath_perm x (sortPath xs)).trans (ih.cons x)

theorem insertPath_sorted (x : String) :
    ∀ {l : List String}, l.Sorted PLe → (insertPath x l).Sorted PLe := by
  intro l h
  induction l with
  | nil => simp [insertPath, PLe]
  | cons y ys ih =>
    simp only [insertPath]
    split
    · rename_i hxy
      rw [List.sorted_cons]
      refine ⟨?_, h⟩
      intro b hb
      rcases List.mem_cons.mp hb with rfl | hb'
      · exact hxy
      · exact pathLe_trans hxy ((List.sorted_cons.mp h).1 b hb')
    · rename_i hxy
      rw [List.sorted_cons] at h ⊢
      refine ⟨?_, ih h.2⟩
      intro b hb
      rcases List.mem_cons.mp ((insertPath_perm x ys).mem_iff.mp hb) with rfl | hb'
      · rcases pathLe_total y b with hyb | hby
        · exact hyb
        · exact absurd hby hxy
      · exact h.1 b hb'

theorem sortPath_sorted (l : List String) : (sortPath l).Sorted PLe := by
  induction l with
  | nil => simp [sortPath]
  | cons x xs ih => exact insertPath_sorted x ih

/-- The determinism fact for path sorting: a function of the input multiset. -/
theorem sortPath_eq_of_perm {l₁ l₂ : List String} (h : l₁.Perm l₂) :
    sortPath l₁ = sortPath l₂ :=
  haveI : IsAntisymm String PLe := ⟨fun _ _ h1 h2 => pathLe_antisymm h1 h2⟩
  List.eq_of_perm_of_sorted
    ((sortPath_perm l₁).trans (h.trans (sortPath_perm l₂).symm))
    (sortPath_sorted l₁) (sortPath_sorted l₂)

theorem mem_sortPath {x : String} {l : List String} : x ∈ sortPath l ↔ x ∈ l :=
  (sortPath_perm l).mem_iff

theorem sortedDedupPath_eq_of_perm {l₁ l₂ : List String} (h : l₁.Perm l₂) :
    sortedDedupPath l₁ = sortedDedupPath l₂ := by
  unfold sortedDedupPath
  rw [sortPath_eq_of_perm h]

theorem mem_sortedDedupPath {x : String} {l : List String} :
    x ∈ sortedDedupPath l ↔ x ∈ l := by
  unfold sortedDedupPath
  rw [mem_dedupAdj, mem_sortPath]

/-! ## Generic string-disequality helpers for diagnostic messages -/

theorem ne_of_take_ne (n : Nat) {a b : String}
    (h : a.data.take n ≠ b.data.take n) : a ≠ b :=
  fun he => h (by rw [he])

theorem take_append_left {a : String} (x : String) {n : Nat} (h : n ≤ a.data.length) :
    (a ++ x).data.take n = a.data.take n := by
  rw [String.data_append, List.take_append_of_le_length h]

/-! ## Claim C2: the `legacy-helper.md` scenario -/

/-- C2, counterexample: a reference file named `legacy-helper.md` does NOT
get two blocking errors.  The generic-stem check tests the whole stem
(`"legacy-helper" in GENERIC_FILE_STEMS` is false), so the file-name audit
yields exactly one error — the legacy-term violation — and no generic-stem
error, refuting the claimed two-error outcome at this concrete input. -/
theorem c2_single_error_counterexample :
    (auditFile "reference" allowedReferenceExtensions "reference/legacy-helper.md").1
      = ["file name contains legacy/workaround term [" ++ sqStr ++ "legacy" ++ sqStr
          ++ "]; rewrite to final-state naming: reference/legacy-helper.md"]
    ∧ ("file name is too generic (not self-explanatory): reference/legacy-helper.md"
        ∉ (auditFile "reference" allowedReferenceExtensions "reference/legacy-helper.md").1) := by
  decide

/-- C2, amended: for every runtime file whose name is `legacy-helper.md`
(under any runtime directory with the reference allow-list), the naming
audit produces exactly one blocking error for that file — the legacy-term
violation citing `['legacy']` — and no warning; in particular no
generic-stem error, because the generic-stem rule tests the whole stem and
`legacy-helper` is not in the generic set. -/
theorem c2_legacy_helper_audit (dirname rel : String)
    (h : lastSeg rel = "legacy-helper.md") :
    auditFile dirname allowedReferenceExtensions rel =
      (["file name contains legacy/workaround term [" ++ sqStr ++ "legacy" ++ sqStr
          ++ "]; rewrite to final-state naming: " ++ rel], []) := by
  have hstem : pathStemLower rel = "legacy-helper" := by
    unfold pathStemLower
    rw [h]
    decide
  have hsuf : pathSuffixLower rel = ".md" := by
    unfold pathSuffixLower
    rw [h]
    decide
  have hbad : sortedDedup ((stemTokens ("legacy-helper" : String).data).filter
      (· ∈ legacyTerms)) = ["legacy"] := by decide
  simp only [auditFile, hstem, hsuf, h]
  rw [hbad]
  simp
  refine ⟨?_, by decide⟩
  simp [show fileStemOk "legacy-helper" = true from by decide,
    show ("legacy-helper" ∉ genericFileStems) from by decide,
    show (∀ x : String, ", ".intercalate [x] = x) from fun x => rfl,
    String.append_assoc]

/-- C2, witness: the amended theorem applied at the concrete scenario file
`reference/legacy-helper.md`. -/
theorem c2_legacy_helper_audit_witness :
    lastSeg "reference/legacy-helper.md" = "legacy-helper.md"
    ∧ auditFile "reference" allowedReferenceExtensions "reference/legacy-helper.md" =
      (["file name contains legacy/workaround term [" ++ sqStr ++ "legacy" ++ sqStr
          ++ "]; rewrite to final-state naming: reference/legacy-helper.md"], []) :=
  ⟨by decide, c2_legacy_helper_audit "reference" "reference/legacy-helper.md" (by decide)⟩

theorem mem_if_singleton {α : Type} {c : Prop} [Decidable c] {m x : α} :
    (x ∈ if c then [m] else []) ↔ c ∧ x = m := by
  split <;> simp_all

theorem charMsg_ne_genericMsg (r r' : String) :
    "file name must be lowercase/digits/hyphen/underscore only: " ++ r
      ≠ "file name is too generic (not self-explanatory): " ++ r' :=
  ne_of_take_ne 12 (by
    rw [take_append_left _ (by decide), take_append_left _ (by decide)]
    decide)

theorem charMsg_ne_legacyMsg (r x r' : String) :
    "file name must be lowercase/digits/hyphen/underscore only: " ++ r
      ≠ "file name contains legacy/workaround term [" ++ x
          ++ "]; rewrite to final-state naming: " ++ r' := by
  apply ne_of_take_ne 12
  rw [take_append_left _ (by decide)]
  rw [show "file name contains legacy/workaround term [" ++ x
        ++ "]; rewrite to final-state naming: " ++ r'
      = "file name contains legacy/workaround term ["
        ++ (x ++ ("]; rewrite to final-state naming: " ++ r')) from by
    rw [String.append_assoc, String.append_assoc]]
  rw [take_append_left _ (by decide)]
  decide

theorem genericMsg_ne_legacyMsg (r x r' : String) :
    "file name is too generic (not self-explanatory): " ++ r
      ≠ "file name contains legacy/workaround term [" ++ x
          ++ "]; rewrite to final-state naming: " ++ r' := by
  apply ne_of_take_ne 12
  rw [take_append_left _ (by decide)]
  rw [show "file name contains legacy/workaround term [" ++ x
        ++ "]; rewrite to final-state naming: " ++ r'
      = "file name contains legacy/workaround term ["
        ++ (x ++ ("]; rewrite to final-state naming: " ++ r')) from by
    rw [String.append_assoc, String.append_assoc]]
  rw [take_append_left _ (by decide)]
  decide

theorem extMsg_ne_underscoreMsg (d r r' : String) :
    "unexpected extension under " ++ d ++ ": " ++ r
      ≠ "prefer hyphen-case file naming for clarity: " ++ r' := by
  apply ne_of_take_ne 7
  rw [show "unexpected extension under " ++ d ++ ": " ++ r
      = "unexpected extension under " ++ (d ++ (": " ++ r)) from by
    rw [String.append_assoc, String.append_assoc]]
  rw [take_append_left _ (by decide), take_append_left _ (by decide)]
  decide

/-- C9: a runtime file without an extension (`Path.suffix == ""`) silently
passes the extension allow-list check — no diagnostic at all, and indeed the
allow-list cannot influence its audit — while the stem-character-class,
generic-stem, legacy-term and underscore-style checks each still fire
exactly according to their own conditions (one applicability iff per
check). -/
theorem c9_extensionless_audit (dirname : String) (ext ext' : List String)
    (rel : String) (h : pathSuffixLower rel = "") :
    auditFile dirname ext rel = auditFile dirname ext' rel
    ∧ ("unexpected extension under " ++ dirname ++ ": " ++ rel)
        ∉ (auditFile dirname ext rel).2
    ∧ (("file name must be lowercase/digits/hyphen/underscore only: " ++ rel)
          ∈ (auditFile dirname ext rel).1 ↔ ¬ fileStemOk (pathStemLower rel))
    ∧ (("file name is too generic (not self-explanatory): " ++ rel)
          ∈ (auditFile dirname ext rel).1 ↔ pathStemLower rel ∈ genericFileStems)
    ∧ (("file name contains legacy/workaround term ["
            ++ String.intercalate ", "
                ((sortedDedup ((stemTokens (pathStemLower rel).data).filter
                    (· ∈ legacyTerms))).map (fun t => sqStr ++ t ++ sqStr))
            ++ "]; rewrite to final-state naming: " ++ rel)
          ∈ (auditFile dirname ext rel).1
        ↔ sortedDedup ((stemTokens (pathStemLower rel).data).filter
            (· ∈ legacyTerms)) ≠ [])
    ∧ (("prefer hyphen-case file naming for clarity: " ++ rel)
          ∈ (auditFile dirname ext rel).2 ↔ '_' ∈ (lastSeg rel).data) := by
  refine ⟨by simp [auditFile, h], ?_, ?_, ?_, ?_, ?_⟩
  · simp only [auditFile, h]
    simp [mem_if_singleton, extMsg_ne_underscoreMsg]
  · simp only [auditFile, h]
    simp [mem_if_singleton, List.mem_append, charMsg_ne_genericMsg,
      charMsg_ne_legacyMsg]
  · simp only [auditFile, h]
    simp [mem_if_singleton, List.mem_append, genericMsg_ne_legacyMsg,
      fun r r' => (charMsg_ne_genericMsg r r').symm]
  · simp only [auditFile, h]
    simp [mem_if_singleton, List.mem_append,
      fun r x r' => (charMsg_ne_legacyMsg r x r').symm,
      fun r x r' => (genericMsg_ne_legacyMsg r x r').symm]
  · simp only [auditFile, h]
    simp [mem_if_singleton, List.mem_append]

/-- C9, witness: the extensionless file `scripts/noext` under `scripts`. -/
theorem c9_extensionless_audit_witness :
    pathSuffixLower "scripts/noext" = ""
    ∧ (auditFile "scripts" allowedScriptExtensions "scripts/noext"
          = auditFile "scripts" [] "scripts/noext"
      ∧ ("unexpected extension under " ++ "scripts" ++ ": " ++ "scripts/noext")
          ∉ (auditFile "scripts" allowedScriptExtensions "scripts/noext").2
      ∧ (("file name must be lowercase/digits/hyphen/underscore only: " ++ "scripts/noext")
            ∈ (auditFile "scripts" allowedScriptExtensions "scripts/noext").1
          ↔ ¬ fileStemOk (pathStemLower "scripts/noext"))
      ∧ (("file name is too generic (not self-explanatory): " ++ "scripts/noext")
            ∈ (auditFile "scripts" allowedScriptExtensions "scripts/noext").1
          ↔ pathStemLower "scripts/noext" ∈ genericFileStems)
      ∧ (("file name contains legacy/workaround term ["
              ++ String.intercalate ", "
                  ((sortedDedup ((stemTokens (pathStemLower "scripts/noext").data).filter
                      (· ∈ legacyTerms))).map (fun t => sqStr ++ t ++ sqStr))
              ++ "]; rewrite to final-state naming: " ++ "scripts/noext")
            ∈ (auditFile "scripts" allowedScriptExtensions "scripts/noext").1
          ↔ sortedDedup ((stemTokens (pathStemLower "scripts/noext").data).filter
              (· ∈ legacyTerms)) ≠ [])
      ∧ (("prefer hyphen-case file naming for clarity: " ++ "scripts/noext")
            ∈ (auditFile "scripts" allowedScriptExtensions "scripts/noext").2
          ↔ '_' ∈ (lastSeg "scripts/noext").data)) :=
  ⟨by decide,
   c9_extensionless_audit "scripts" allowedScriptExtensions [] "scripts/noext" (by decide)⟩

/-- C4: a manifest `include` entry that contains a `..` path segment or
starts with the root separator `/` yields exactly the must-stay-inside
error in the entry loop — for every filesystem, so no existence check can
influence it — and the include block never reports that same entry as
missing on disk. -/
theorem c4_escaping_entry (pathEx isDir : String → Bool) (inc : List String)
    (p : String) (hmem : p ∈ inc)
    (hbad : strStarts "/" p = true ∨ ".." ∈ pathSegs p) :
    includeEntryDiags pathEx p = [IncDiag.stayInside p]
    ∧ IncDiag.stayInside p ∈ (includeChecks pathEx isDir inc).1
    ∧ IncDiag.missingOnDisk p ∉ (includeChecks pathEx isDir inc).1 := by
  have hne : inc ≠ [] := by
    rintro rfl
    simp at hmem
  have hent : includeEntryDiags pathEx p = [IncDiag.stayInside p] := by
    rcases hbad with h1 | h2
    · simp [includeEntryDiags, h1]
    · simp [includeEntryDiags, h2]
  have hin : IncDiag.stayInside p ∈ inc.flatMap (includeEntryDiags pathEx) :=
    List.mem_flatMap.mpr ⟨p, hmem, by rw [hent]; exact List.mem_singleton_self _⟩
  refine ⟨hent, ?_, ?_⟩
  · simp only [includeChecks, if_neg hne, List.mem_append]
    exact Or.inl (Or.inl (Or.inl (Or.inr hin)))
  · intro hbadmem
    have hloop : ∀ q, q ∈ inc →
        IncDiag.missingOnDisk p ∈ includeEntryDiags pathEx q → False := by
      intro q hq hdm
      unfold includeEntryDiags at hdm
      split at hdm
      · simp at hdm
      · rename_i hcond
        split at hdm
        · simp at hdm
          subst hdm
          rcases hbad with h1 | h2
          · simp [h1] at hcond
          · simp [h2] at hcond
        · simp at hdm
    simp only [includeChecks, if_neg hne, List.mem_append] at hbadmem
    rcases hbadmem with ((((((h | h) | h) | h) | h) | h) | h)
    · rcases mem_if_singleton.mp h with ⟨-, heq⟩
      simp at heq
    · rcases mem_if_singleton.mp h with ⟨-, heq⟩
      simp at heq
    · rcases mem_if_singleton.mp h with ⟨-, heq⟩
      simp at heq
    · rcases List.mem_flatMap.mp h with ⟨q, hq, hdm⟩
      exact hloop q hq hdm
    · rcases List.mem_flatMap.mp h with ⟨d, -, hdm⟩
      rcases mem_if_singleton.mp hdm with ⟨-, heq⟩
      simp at heq
    · rcases mem_if_singleton.mp h with ⟨-, heq⟩
      simp at heq
    · rcases mem_if_singleton.mp h with ⟨-, heq⟩
      simp at heq

/-- C4, witness: the entry `../x` in a one-entry manifest. -/
theorem c4_escaping_entry_witness :
    includeEntryDiags (fun _ => true) "../x" = [IncDiag.stayInside "../x"]
    ∧ IncDiag.stayInside "../x"
        ∈ (includeChecks (fun _ => true) (fun _ => true) ["../x"]).1
    ∧ IncDiag.missingOnDisk "../x"
        ∉ (includeChecks (fun _ => true) (fun _ => true) ["../x"]).1 :=
  c4_escaping_entry (fun _ => true) (fun _ => true) ["../x"] "../x"
    (by decide) (Or.inr (by decide))

theorem dedup_length_iff (l : List String) :
    l.dedup.length = l.length ↔ l.Nodup := by
  constructor
  · intro h
    have := (List.dedup_sublist l).eq_of_length h
    rw [← this]
    exact List.nodup_dedup l
  · intro h
    rw [List.dedup_eq_self.mpr h]

/-- C3, counterexample: for the manifest `{"include": []}` — a perfectly
typed array of strings that omits `SKILL.md` — `validate` reports no
must-contain-SKILL.md error at all, because the source guards the whole
block with `if include:` and an empty list is falsy.  This refutes the
claim as stated for every loaded manifest whose `include` is an array of
strings. -/
theorem c3_empty_include_counterexample :
    includeOf (loadPayload exampleEmptyIncludeFS).1 = ([] : List String)
    ∧ "SKILL.md" ∉ includeOf (loadPayload exampleEmptyIncludeFS).1
    ∧ "SKILL_PAYLOAD.json include must contain SKILL.md"
        ∉ validateErrors exampleEmptyIncludeFS := by
  decide

/-- C3, amended: for every loaded manifest whose `include` field is a
*non-empty* array of strings, the include block reports the
duplicate-entries error exactly when the entries are not unique, the
must-contain-SKILL.md error exactly when `SKILL.md` is absent, and the
no-README.md error exactly when `README.md` is present — each independently
of the other two and of every other rule (the block's rendered output sits
verbatim, unchanged, inside the full error list). -/
theorem c3_include_rules (fs : SkillFS) (inc : List String)
    (hinc : includeOf (loadPayload fs).1 = inc) (hne : inc ≠ []) :
    (IncDiag.dupItems ∈ (includeChecks fs.pathExists fs.isDir inc).1 ↔ ¬ inc.Nodup)
    ∧ (IncDiag.mustContainSkill ∈ (includeChecks fs.pathExists fs.isDir inc).1
        ↔ "SKILL.md" ∉ inc)
    ∧ (IncDiag.mustNotReadme ∈ (includeChecks fs.pathExists fs.isDir inc).1
        ↔ "README.md" ∈ inc)
    ∧ ∃ pre post, collectErrors fs
        = pre ++ ((includeChecks fs.pathExists fs.isDir inc).1.map renderInc) ++ post := by
  have hshape : ∀ q d, d ∈ includeEntryDiags fs.pathExists q →
      d = IncDiag.stayInside q ∨ d = IncDiag.missingOnDisk q := by
    intro q d hd
    unfold includeEntryDiags at hd
    split at hd
    · simp at hd
      exact Or.inl hd
    · split at hd
      · simp at hd
        exact Or.inr hd
      · simp at hd
  have key : ∀ x : IncDiag,
      (∀ q, x ≠ IncDiag.stayInside q ∧ x ≠ IncDiag.missingOnDisk q ∧ x ≠ IncDiag.missDir q) →
      (x ∈ (includeChecks fs.pathExists fs.isDir inc).1
        ↔ ((inc.dedup.length ≠ inc.length ∧ x = IncDiag.dupItems)
            ∨ ("SKILL.md" ∉ inc ∧ x = IncDiag.mustContainSkill)
            ∨ ("README.md" ∈ inc ∧ x = IncDiag.mustNotReadme))) := by
    intro x hx
    simp only [includeChecks, if_neg hne, List.mem_append]
    constructor
    · rintro ((((((h | h) | h) | h) | h) | h) | h)
      · exact Or.inl (mem_if_singleton.mp h)
      · exact Or.inr (Or.inl (mem_if_singleton.mp h))
      · exact Or.inr (Or.inr (mem_if_singleton.mp h))
      · rcases List.mem_flatMap.mp h with ⟨q, -, hd⟩
        rcases hshape q x hd with rfl | rfl
        · exact absurd rfl (hx q).1
        · exact absurd rfl (hx q).2.1
      · rcases List.mem_flatMap.mp h with ⟨d, -, hd⟩
        rcases mem_if_singleton.mp hd with ⟨-, rfl⟩
        exact absurd rfl (hx d).2.2
      · rcases mem_if_singleton.mp h with ⟨-, rfl⟩
        exact absurd rfl (hx referenceDirCanonical).2.2
      · rcases mem_if_singleton.mp h with ⟨-, rfl⟩
        exact absurd rfl (hx referenceDirLegacy).2.2
    · rintro ((hc | hc | hc))
      · exact Or.inl (Or.inl (Or.inl (Or.inl (Or.inl (Or.inl (mem_if_singleton.mpr hc))))))
      · exact Or.inl (Or.inl (Or.inl (Or.inl (Or.inl (Or.inr (mem_if_singleton.mpr hc))))))
      · exact Or.inl (Or.inl (Or.inl (Or.inl (Or.inr (mem_if_singleton.mpr hc)))))
  refine ⟨?_, ?_, ?_, ?_⟩
  · rw [key IncDiag.dupItems (by intro q; refine ⟨by simp, by simp, by simp⟩)]
    simp [dedup_length_iff]
  · rw [key IncDiag.mustContainSkill (by intro q; refine ⟨by simp, by simp, by simp⟩)]
    simp
  · rw [key IncDiag.mustNotReadme (by intro q; refine ⟨by simp, by simp, by simp⟩)]
    simp
  · refine ⟨headerErrors (skillText fs) ++ ((loadPayload fs).2
        ++ includeTypeErrors (loadPayload fs).1),
      structureErrors (skillText fs) (fmName (skillText fs))
        ++ ((outputSectionDiags (skillText fs)).1
        ++ ((archiveSectionDiags (skillText fs)).1
        ++ (scanHardCoupling (skillText fs) (fmName (skillText fs))
        ++ ((auditRuntimeFiles fs.pathExists fs.isFile fs.rawUnder).1
        ++ scanAbsolutePathLiterals fs.pathExists fs.isFile fs.rawUnder fs.content inc)))), ?_⟩
    simp only [collectErrors, collectErrorsPre]
    rw [hinc]
    simp [List.append_assoc]

/-- C3, witness: the amended theorem applied to a bundle whose manifest
`include` is `["SKILL.md", "SKILL.md"]`. -/
theorem c3_include_rules_witness :
    (IncDiag.dupItems
        ∈ (includeChecks exampleDupIncludeFS.pathExists exampleDupIncludeFS.isDir
            ["SKILL.md", "SKILL.md"]).1
      ↔ ¬ (["SKILL.md", "SKILL.md"] : List String).Nodup)
    ∧ (IncDiag.mustContainSkill
          ∈ (includeChecks exampleDupIncludeFS.pathExists exampleDupIncludeFS.isDir
              ["SKILL.md", "SKILL.md"]).1
        ↔ "SKILL.md" ∉ (["SKILL.md", "SKILL.md"] : List String))
    ∧ (IncDiag.mustNotReadme
          ∈ (includeChecks exampleDupIncludeFS.pathExists exampleDupIncludeFS.isDir
              ["SKILL.md", "SKILL.md"]).1
        ↔ "README.md" ∈ (["SKILL.md", "SKILL.md"] : List String))
    ∧ ∃ pre post, collectErrors exampleDupIncludeFS
        = pre ++ ((includeChecks exampleDupIncludeFS.pathExists exampleDupIncludeFS.isDir
            ["SKILL.md", "SKILL.md"]).1.map renderInc) ++ post :=
  c3_include_rules exampleDupIncludeFS ["SKILL.md", "SKILL.md"] (by decide) (by decide)

/-- C6: the coupling scanner never reports a token equal to the bundle's own
header name — every diagnostic it produces (cross-reference or direct-call)
carries a token different from `own`, whatever the line contains. -/
theorem c6_own_name_exempt (text own : String) (d : CoupDiag)
    (hd : d ∈ scanHardCouplingDiags text own) : d.tokenOf ≠ own := by
  unfold scanHardCouplingDiags at hd
  rcases List.mem_flatMap.mp hd with ⟨p, -, hp⟩
  rcases List.mem_append.mp hp with h | h
  · unfold lineCrossDiags at h
    rcases List.mem_filterMap.mp h with ⟨tok, -, hfn⟩
    split at hfn
    · exact absurd hfn (by simp)
    · split at hfn
      · exact absurd hfn (by simp)
      · split at hfn
        · exact absurd hfn (by simp)
        · split at hfn
          · exact absurd hfn (by simp)
          · rename_i hown _ _ _
            rw [Option.some_inj] at hfn
            subst hfn
            simpa [CoupDiag.tokenOf] using hown
  · unfold lineDirectDiags at h
    split at h
    · rename_i target _
      split at h
      · split at h
        · rename_i hcond
          simp at h
          subst h
          simp at hcond
          simpa [CoupDiag.tokenOf] using hcond.1
        · simp at h
      · simp at h
    · simp at h

/-- C6, witness: a line that names another bundle with a coupling verb and
no optional wording is reported, and the theorem shows its token is not the
bundle's own name. -/
theorem c6_own_name_exempt_witness :
    CoupDiag.cross 1 "bagakit-other"
        ∈ scanHardCouplingDiags "must run bagakit-other now" "bagakit-self"
    ∧ (CoupDiag.cross 1 "bagakit-other").tokenOf ≠ "bagakit-self" :=
  ⟨by decide,
   c6_own_name_exempt "must run bagakit-other now" "bagakit-self" _ (by decide)⟩

theorem startsChars_self_append (p x : List Char) : startsChars p (p ++ x) = true := by
  induction p with
  | nil => rfl
  | cons c cs ih => simp [startsChars, ih]

theorem posixAfterSlash_home (t : List Char) :
    posixAfterSlash ("home/alice/project/file.md".data ++ t) = true := by
  unfold posixAfterSlash
  apply List.any_eq_true.mpr
  refine ⟨"home", by decide, ?_⟩
  rw [show ("home/alice/project/file.md".data ++ t)
      = ("home" : String).data ++ ("/alice/project/file.md".data ++ t) from rfl]
  rw [startsChars_self_append, List.drop_left]
  rfl

theorem posixScanAux_append (xs ys : List Char) (prev : Option Char)
    (h : posixScanAux (xs.getLast?.or prev) ys = true) :
    posixScanAux prev (xs ++ ys) = true := by
  induction xs generalizing prev with
  | nil => simpa using h
  | cons c rest ih =>
    have hlast : (c :: rest).getLast?.or prev = rest.getLast?.or (some c) := by
      cases rest with
      | nil => rfl
      | cons r rs =>
        rw [List.getLast?_cons_cons]
        obtain ⟨x, hx⟩ := Option.isSome_iff_exists.mp
          (List.getLast?_isSome.mpr (by simp) : ((r :: rs).getLast?).isSome)
        rw [hx]
        rfl
    rw [List.cons_append]
    have hih : posixScanAux (some c) (rest ++ ys) = true := by
      apply ih
      rw [← hlast]
      exact h
    unfold posixScanAux
    rw [hih, Bool.or_true]

/-- C7, counterexample: a scanned line *containing* the literal
`/home/alice/project/file.md` need not be reported — with an alphanumeric
character immediately before the occurrence the lookbehind
`(?<![:A-Za-z0-9_])` rejects the match, so the scanner reports nothing for
that line even though the file read succeeds. -/
theorem c7_lookbehind_counterexample :
    hasSub "/home/alice/project/file.md" "x/home/alice/project/file.md" = true
    ∧ lineAbsHit "x/home/alice/project/file.md" = false
    ∧ scanFileErrors
        (fun p => if p = "SKILL.md" then some "x/home/alice/project/file.md" else none)
        "SKILL.md" = [] := by
  decide

/-- C7, amended: a scanned line containing `/home/alice/project/file.md` at
a position not immediately preceded by a colon, ASCII letter, digit or
underscore (in particular at line start or after whitespace) is matched by
the path-literal pattern, a line containing only `./relative/file.md` never
is, and every matched line of a decodable target yields the error citing
the relative file path and 1-based line number; for every in-root target
the exception-aware loop body returns exactly this error list. -/
theorem c7_absolute_path_scan (s t : String)
    (h : posixLbOk s.data.getLast? = true) :
    lineAbsHit (s ++ "/home/alice/project/file.md" ++ t) = true
    ∧ lineAbsHit "./relative/file.md" = false
    ∧ (∀ (content : String → Option String) (p txt : String), content p = some txt →
        ∀ iv ∈ enumFrom 1 (pySplitlines txt), lineAbsHit iv.2 = true →
          (p ++ ":" ++ toString iv.1
              ++ " contains absolute path literal; use relative paths or env variables in generated files")
            ∈ scanFileErrors content p)
    ∧ ∀ (content : String → Option String) (p : String), strStarts "/" p = false →
        scanFileExc content p = .ok (scanFileErrors content p) := by
  refine ⟨?_, by decide, ?_, ?_⟩
  · unfold lineAbsHit
    have hdata : (s ++ "/home/alice/project/file.md" ++ t).data
        = s.data ++ ('/' :: ("home/alice/project/file.md".data ++ t.data)) := by
      simp [String.data_append]
    rw [hdata]
    have hhit : posixScanAux (s.data.getLast?.or none)
        ('/' :: ("home/alice/project/file.md".data ++ t.data)) = true := by
      unfold posixScanAux
      have hlb : posixLbOk (s.data.getLast?.or none) = true := by
        cases hl : s.data.getLast? with
        | none => rfl
        | some c => rw [hl] at h; simpa using h
      rw [posixAfterSlash_home]
      simp [hlb]
      exact Or.inl h
    rw [posixScanAux_append _ _ _ hhit]
    rfl
  · intro content p txt hc iv hiv hhit
    unfold scanFileErrors
    rw [hc]
    exact List.mem_filterMap.mpr ⟨iv, hiv, by simp [hhit]⟩
  · intro content p hs
    unfold scanFileExc
    cases hc : content p with
    | none =>
      unfold scanFileErrors
      rw [hc]
    | some t => simp [hs]

/-- C7, witness: the literal after a space is flagged, on a one-line target
file the scanner emits the `rel:1`-cited error, and the exception-aware
body succeeds on the in-root target. -/
theorem c7_absolute_path_scan_witness :
    lineAbsHit ("see " ++ "/home/alice/project/file.md" ++ "") = true
    ∧ lineAbsHit "./relative/file.md" = false
    ∧ ("SKILL.md" ++ ":" ++ toString 1
          ++ " contains absolute path literal; use relative paths or env variables in generated files")
        ∈ scanFileErrors
            (fun p => if p = "SKILL.md" then some "/home/alice/project/file.md" else none)
            "SKILL.md"
    ∧ scanFileExc
          (fun p => if p = "SKILL.md" then some "/home/alice/project/file.md" else none)
          "SKILL.md"
        = .ok (scanFileErrors
            (fun p => if p = "SKILL.md" then some "/home/alice/project/file.md" else none)
            "SKILL.md") := by
  obtain ⟨h1, h2, h3, h4⟩ := c7_absolute_path_scan "see " "" (by decide)
  exact ⟨h1, h2,
    h3 _ "SKILL.md" "/home/alice/project/file.md" (by decide)
      (1, "/home/alice/project/file.md") (by decide) (by decide),
    h4 _ "SKILL.md" (by decide)⟩

theorem charToNat_ofNat (n : Nat) (h : n.isValidChar) : (Char.ofNat n).toNat = n := by
  have hlt : n < 2 ^ 32 := by
    rcases h with h | ⟨h1, h2⟩ <;> omega
  simp [Char.ofNat, h, Char.ofNatAux, Char.toNat, UInt32.toNat, BitVec.toNat_ofNat,
    Nat.mod_eq_of_lt hlt]

theorem lowerChar_idem (c : Char) : lowerChar (lowerChar c) = lowerChar c := by
  unfold lowerChar
  by_cases h : cUpper c = true
  · have hb : 65 ≤ c.toNat ∧ c.toNat ≤ 90 := by
      unfold cUpper at h
      simp at h
      exact h
    have hval : (c.toNat + 32).isValidChar := Or.inl (by omega)
    have htn : (Char.ofNat (c.toNat + 32)).toNat = c.toNat + 32 := charToNat_ofNat _ hval
    have hnu : cUpper (Char.ofNat (c.toNat + 32)) = false := by
      unfold cUpper
      rw [htn]
      simp
      omega
    simp [h, hnu]
  · simp [h]

theorem lowerStr_idem (s : String) : lowerStr (lowerStr s) = lowerStr s := by
  unfold lowerStr
  apply String.ext
  simp [List.map_map, Function.comp, lowerChar_idem]

theorem sectionFindM_eq_none_iff (m : List String → Option Nat) :
    ∀ ls : List String,
      sectionFindM m ls = none ↔ ∀ i < ls.length, m (ls.drop i) = none := by
  intro ls
  induction ls with
  | nil => simp [sectionFindM]
  | cons l rest ih =>
    unfold sectionFindM
    cases hm : m (l :: rest) with
    | some d =>
      constructor
      · intro h
        exact absurd h (by simp)
      · intro h
        have h0 := h 0 (by simp)
        rw [List.drop_zero] at h0
        rw [hm] at h0
        exact absurd h0 (by simp)
    | none =>
      rw [ih]
      constructor
      · intro h i hi
        cases i with
        | zero => rw [List.drop_zero]; exact hm
        | succ k =>
          rw [List.drop_succ_cons]
          exact h k (by simpa using hi)
      · intro h i hi
        have := h (i + 1) (by simpa using hi)
        rwa [List.drop_succ_cons] at this

theorem sectionFindM_first (m : List String → Option Nat) :
    ∀ (ls : List String) (i d : Nat), i < ls.length →
      m (ls.drop i) = some d →
      (∀ j, j < i → m (ls.drop j) = none) →
      sectionFindM m ls = some (ls.drop (i + d + 1)) := by
  intro ls
  induction ls with
  | nil => intro i d hi; exact absurd hi (by simp)
  | cons l rest ih =>
    intro i d hi hm hprev
    cases i with
    | zero =>
      rw [List.drop_zero] at hm
      unfold sectionFindM
      rw [hm]
      have harith : 0 + d + 1 = d + 1 := by omega
      rw [harith]
    | succ k =>
      have h0 : m (l :: rest) = none := by
        have := hprev 0 (Nat.succ_pos k)
        rwa [List.drop_zero] at this
      unfold sectionFindM
      rw [h0]
      show sectionFindM m rest = some ((l :: rest).drop (k + 1 + d + 1))
      have harith : k + 1 + d + 1 = k + d + 1 + 1 := by omega
      rw [harith, List.drop_succ_cons]
      exact ih k d (by simpa using hi)
        (by rw [← List.drop_succ_cons]; exact hm)
        (fun j hj => by
          have := hprev (j + 1) (by omega)
          rwa [List.drop_succ_cons] at this)

theorem parenOnLater_map_lower : ∀ (ls : List String) (e : Nat),
    parenOnLater (ls.map lowerStr) e = parenOnLater ls e := by
  intro ls
  induction ls with
  | nil => intro e; rfl
  | cons l rest ih =>
    intro e
    simp only [List.map_cons, parenOnLater]
    rw [lowerStr_idem]
    by_cases hu : (lowerStr l).data.dropWhile isPyWs = []
    · simp [hu, ih]
    · simp [hu]

theorem parenCont_map_lower (r2 : List Char) (after : List String) :
    parenCont r2 (after.map lowerStr) = parenCont r2 after := by
  unfold parenCont
  by_cases hu : r2.dropWhile isPyWs = []
  · simp [hu, parenOnLater_map_lower]
  · simp [hu]

theorem skipToLit_map_lower (cm : List Char → List String → Option Nat)
    (hcm : ∀ u after, cm u (after.map lowerStr) = cm u after) :
    ∀ (ls : List String) (e : Nat),
      skipToLit cm (ls.map lowerStr) e = skipToLit cm ls e := by
  intro ls
  induction ls with
  | nil => intro e; rfl
  | cons l rest ih =>
    intro e
    simp only [List.map_cons, skipToLit]
    rw [lowerStr_idem]
    by_cases hu : (lowerStr l).data.dropWhile isPyWs = []
    · simp [hu, ih]
    · simp [hu, hcm]

theorem headAfterHash_map_lower (cm : List Char → List String → Option Nat)
    (hcm : ∀ u after, cm u (after.map lowerStr) = cm u after)
    (t0 : List Char) (rest : List String) :
    headAfterHash cm t0 (rest.map lowerStr) = headAfterHash cm t0 rest := by
  unfold headAfterHash
  cases t0 with
  | nil => exact skipToLit_map_lower cm hcm rest 0
  | cons c t1 =>
    by_cases hc : isPyWs c
    · simp only [if_pos hc]
      cases hd : (c :: t1).dropWhile isPyWs with
      | nil => exact skipToLit_map_lower cm hcm rest 0
      | cons x xs => exact hcm _ _
    · simp [hc]

theorem headFind_map_lower (cm : List Char → List String → Option Nat)
    (hcm : ∀ u after, cm u (after.map lowerStr) = cm u after) :
    ∀ ls : List String, headFind cm (ls.map lowerStr) = headFind cm ls := by
  intro ls
  cases ls with
  | nil => rfl
  | cons l0 rest =>
    simp only [List.map_cons, headFind]
    rw [lowerStr_idem]
    cases hd : (lowerStr l0).data with
    | nil => rfl
    | cons c1 cs =>
      cases cs with
      | nil => rfl
      | cons c2 t0 =>
        dsimp only
        by_cases h12 : (c1 = '#' && c2 = '#') = true
        · simp only [h12, if_true]
          exact headAfterHash_map_lower cm hcm t0 rest
        · simp [h12]

theorem whenToUseHead_map_lower (ls : List String) :
    whenToUseHead (ls.map lowerStr) = whenToUseHead ls :=
  headFind_map_lower whenToUseCont (fun _ _ => rfl) ls

theorem whenNotToUseHead_map_lower (ls : List String) :
    whenNotToUseHead (ls.map lowerStr) = whenNotToUseHead ls :=
  headFind_map_lower whenNotToUseCont (fun _ _ => rfl) ls

theorem fallbackHead_map_lower (ls : List String) :
    fallbackHead (ls.map lowerStr) = fallbackHead ls :=
  headFind_map_lower fallbackCont (fun u after => by
    unfold fallbackCont
    by_cases h1 : startsChars "fallback path".data u = true
    · simp [h1, parenCont_map_lower]
    · by_cases h2 : startsChars "when no clear fit".data u = true
      · simp [h1, h2, parenCont_map_lower]
      · simp [h1, h2]) ls

theorem outputHead_map_lower (ls : List String) :
    outputHead (ls.map lowerStr) = outputHead ls :=
  headFind_map_lower outputCont (fun _ _ => rfl) ls

theorem archiveHead_map_lower (ls : List String) :
    archiveHead (ls.map lowerStr) = archiveHead ls :=
  headFind_map_lower archiveCont (fun u after => by
    unfold archiveCont
    by_cases h1 : startsChars "archive gate".data u = true
    · simp [h1, parenCont_map_lower]
    · simp [h1]) ls

theorem takeToH2_not_h2ws : ∀ ls : List String, ∀ l ∈ (takeToH2 ls).1, h2ws l = false := by
  intro ls
  induction ls with
  | nil => simp [takeToH2]
  | cons l rest ih =>
    unfold takeToH2
    split
    · simp
    · rename_i hcond
      intro l' hl'
      rcases List.mem_cons.mp hl' with rfl | hl''
      · unfold isH2Start at hcond
        simp at hcond
        exact hcond.1
      · exact ih l' hl''

/-- C5, counterexample: the section block is cut only at the next *level-2*
heading.  A level-1 heading (`# Top`) — a heading of higher level — after
the matched heading does not terminate the block: it appears inside the
returned text, refuting "up to but not including the next heading at the
same or higher level" at this concrete input. -/
theorem c5_level1_heading_counterexample :
    whenToUseHead ["## When to Use", "body", "# Top", "more", "## Beta", "z"] = some 0
    ∧ sectionBlock "## When to Use\nbody\n# Top\nmore\n## Beta\nz" whenToUseHead
        = some "\nbody\n# Top\nmore\n"
    ∧ hasSub "# Top" "\nbody\n# Top\nmore\n" = true := by
  decide

/-- C5, amended: given a heading pattern, section lookup returns not-found
exactly when the pattern matches at no line start of the document (a match
may span lines, the pattern's whitespace classes crossing newlines); at
the first matching position it returns a block — the text after the line
on which the matched content ends, cut at the first subsequent
`##`-plus-whitespace line, so no retained line is a level-2 heading start
(headings of other levels, such as the level-1 `#`, do not terminate the
block); and the validator's five heading matchers are case-insensitive
(invariant under lowercasing the document's lines). -/
theorem c5_section_lookup (text : String) (m : List String → Option Nat) :
    (sectionBlock text m = none
      ↔ ∀ i < (splitNl text).length, m ((splitNl text).drop i) = none)
    ∧ (∀ (i d : Nat), i < (splitNl text).length →
        m ((splitNl text).drop i) = some d →
        (∀ j, j < i → m ((splitNl text).drop j) = none) →
        sectionFindM m (splitNl text) = some ((splitNl text).drop (i + d + 1))
        ∧ (sectionBlock text m).isSome = true
        ∧ ∀ l ∈ (takeToH2 (((splitNl text).drop (i + d + 1)).dropWhile
              (fun s => wsOnly s.data))).1, h2ws l = false)
    ∧ (∀ ls : List String,
        whenToUseHead (ls.map lowerStr) = whenToUseHead ls
        ∧ whenNotToUseHead (ls.map lowerStr) = whenNotToUseHead ls
        ∧ fallbackHead (ls.map lowerStr) = fallbackHead ls
        ∧ outputHead (ls.map lowerStr) = outputHead ls
        ∧ archiveHead (ls.map lowerStr) = archiveHead ls) := by
  refine ⟨?_, ?_, ?_⟩
  · have key : sectionBlock text m = none ↔ sectionFindM m (splitNl text) = none := by
      unfold sectionBlock
      cases sectionFindM m (splitNl text) <;> simp
    rw [key]
    exact sectionFindM_eq_none_iff m (splitNl text)
  · intro i d hi hm hprev
    have hfind := sectionFindM_first m (splitNl text) i d hi hm hprev
    refine ⟨hfind, ?_, ?_⟩
    · unfold sectionBlock
      rw [hfind]
      rfl
    · exact takeToH2_not_h2ws _
  · intro ls
    exact ⟨whenToUseHead_map_lower ls, whenNotToUseHead_map_lower ls,
      fallbackHead_map_lower ls, outputHead_map_lower ls, archiveHead_map_lower ls⟩

/-- C5, witness: the first-match part of the theorem at a concrete document
whose heading match spans two lines — `##` alone on line 0, the literal on
line 1. -/
theorem c5_section_lookup_witness :
    sectionFindM whenToUseHead (splitNl "##\nWhen to Use\n- a\n# T\n## B\nz")
        = some ((splitNl "##\nWhen to Use\n- a\n# T\n## B\nz").drop (0 + 1 + 1))
    ∧ (sectionBlock "##\nWhen to Use\n- a\n# T\n## B\nz" whenToUseHead).isSome = true := by
  have h := (c5_section_lookup "##\nWhen to Use\n- a\n# T\n## B\nz" whenToUseHead).2.1 0 1
    (by decide) (by decide) (fun j hj => absurd hj (Nat.not_lt_zero j))
  exact ⟨h.1, h.2.1⟩

theorem mem_addTarget {p q : String} (h : p ∈ addTarget q) : p = q := by
  unfold addTarget at h
  split at h
  · simpa using h
  · simp at h

theorem startsChars_head {a : Char} {as l : List Char}
    (h : startsChars (a :: as) l = true) : l.head? = some a := by
  cases l with
  | nil => simp [startsChars] at h
  | cons b bs =>
    simp [startsChars] at h
    simp [h.1]

/-- C10: the absolute-path scanner's target set always contains `SKILL.md`
(whatever the manifest `include` says), and in fallback mode (empty or
unavailable `include`) every target is either `SKILL.md` or lies under the
`reference`, `references` or `agents` directories — in particular nothing
under `scripts` (nor `scripts` itself) is ever scanned in fallback mode.
The hypothesis states that recursive directory enumeration only yields
paths under the enumerated directory. -/
theorem c10_scan_targets (pathEx isFile : String → Bool) (rawUnder : String → List String)
    (hwf : ∀ d p, p ∈ rawUnder d → strStarts (d ++ "/") p = true) :
    (∀ inc : List String, "SKILL.md" ∈ scanTargets pathEx isFile rawUnder inc)
    ∧ (∀ p ∈ scanTargets pathEx isFile rawUnder [],
        p = "SKILL.md" ∨ strStarts "reference/" p = true
          ∨ strStarts "references/" p = true ∨ strStarts "agents/" p = true)
    ∧ (∀ p ∈ scanTargets pathEx isFile rawUnder [],
        strStarts "scripts/" p = false ∧ p ≠ "scripts") := by
  have hchar : ∀ (p w : String) (c : Char),
      strStarts w p = true → w.data.head? = some c → p.data.head? = some c := by
    intro p w c hs hh
    cases hw : w.data with
    | nil => rw [hw] at hh; simp at hh
    | cons a as =>
      rw [hw] at hh
      simp at hh
      subst hh
      unfold strStarts at hs
      rw [hw] at hs
      exact startsChars_head hs
  have hroot : ∀ (p' dp : String),
      p' ∈ (let np := normPath dp
        if ¬ pathEx np then []
        else if isFile np then addTarget np
        else ((sortPath (rawUnder np)).filter isFile).flatMap addTarget) →
      p' ∈ addTarget (normPath dp)
        ∨ ∃ q ∈ rawUnder (normPath dp), p' = q := by
    intro p' dp hp
    by_cases h1 : pathEx (normPath dp)
    · by_cases h2 : isFile (normPath dp)
      · left
        simpa [h1, h2] using hp
      · right
        have hp2 : p' ∈ ((sortPath (rawUnder (normPath dp))).filter isFile).flatMap addTarget := by
          simpa [h1, h2] using hp
        rcases List.mem_flatMap.mp hp2 with ⟨q, hq, hpq⟩
        exact ⟨q, mem_sortPath.mp (List.mem_filter.mp hq).1, mem_addTarget hpq⟩
    · simp [h1] at hp
  have hmain : ∀ p ∈ scanTargets pathEx isFile rawUnder [],
      p = "SKILL.md" ∨ strStarts "reference/" p = true
        ∨ strStarts "references/" p = true ∨ strStarts "agents/" p = true := by
    intro p hp
    have hp' := mem_sortedDedupPath.mp hp
    rcases List.mem_append.mp hp' with h | h
    · left
      exact mem_addTarget h
    · rcases List.mem_flatMap.mp h with ⟨rel, hrel, hprel⟩
      have hroots : rel = "reference" ∨ rel = "references" ∨ rel = "agents" := by
        simpa [scanRoots] using hrel
      rcases hroots with rfl | rfl | rfl
      · rcases hroot p "reference" hprel with h' | ⟨q, hq, heq⟩
        · rw [show normPath "reference" = "reference" from by decide] at h'
          rw [show addTarget "reference" = [] from by decide] at h'
          simp at h'
        · right; left
          have hq' : q ∈ rawUnder "reference" := by
            rw [show normPath "reference" = "reference" from by decide] at hq
            exact hq
          have hpre := hwf "reference" q hq'
          rw [show ("reference" ++ "/" : String) = "reference/" from by decide] at hpre
          rw [heq]
          exact hpre
      · rcases hroot p "references" hprel with h' | ⟨q, hq, heq⟩
        · rw [show normPath "references" = "references" from by decide] at h'
          rw [show addTarget "references" = [] from by decide] at h'
          simp at h'
        · right; right; left
          have hq' : q ∈ rawUnder "references" := by
            rw [show normPath "references" = "references" from by decide] at hq
            exact hq
          have hpre := hwf "references" q hq'
          rw [show ("references" ++ "/" : String) = "references/" from by decide] at hpre
          rw [heq]
          exact hpre
      · rcases hroot p "agents" hprel with h' | ⟨q, hq, heq⟩
        · rw [show normPath "agents" = "agents" from by decide] at h'
          rw [show addTarget "agents" = [] from by decide] at h'
          simp at h'
        · right; right; right
          have hq' : q ∈ rawUnder "agents" := by
            rw [show normPath "agents" = "agents" from by decide] at hq
            exact hq
          have hpre := hwf "agents" q hq'
          rw [show ("agents" ++ "/" : String) = "agents/" from by decide] at hpre
          rw [heq]
          exact hpre
  refine ⟨?_, hmain, ?_⟩
  · intro inc
    apply mem_sortedDedupPath.mpr
    apply List.mem_append.mpr
    left
    rw [show addTarget "SKILL.md" = ["SKILL.md"] from by decide]
    exact List.mem_singleton_self _
  · intro p hp
    rcases hmain p hp with rfl | h' | h' | h'
    · exact ⟨by decide, by decide⟩
    all_goals
      constructor
      · by_contra hs
        simp only [Bool.not_eq_false] at hs
        have h1 := hchar p _ _ h' rfl
        have h2 := hchar p _ _ hs rfl
        rw [h1] at h2
        simp at h2
      · rintro rfl
        revert h'
        decide

/-- C10, witness: a concrete filesystem with one file under `reference`. -/
theorem c10_scan_targets_witness :
    "SKILL.md" ∈ scanTargets (fun p => p = "reference" || p = "reference/a.md")
        (fun p => p = "reference/a.md")
        (fun d => if d = "reference" then ["reference/a.md"] else []) ["SKILL.md"]
    ∧ strStarts "scripts/" "SKILL.md" = false ∧ "SKILL.md" ≠ "scripts" := by
  have h := c10_scan_targets (fun p => p = "reference" || p = "reference/a.md")
    (fun p => p = "reference/a.md")
    (fun d => if d = "reference" then ["reference/a.md"] else [])
    (fun d p hp => by
      by_cases hd : d = "reference"
      · subst hd
        simp at hp
        subst hp
        decide
      · simp [hd] at hp)
  exact ⟨h.1 ["SKILL.md"], h.2.2 "SKILL.md" (h.1 [])⟩

theorem scanFileExc_ok_val {content : String → Option String} {p : String}
    {es : List String} (h : scanFileExc content p = .ok es) :
    es = scanFileErrors content p := by
  unfold scanFileExc at h
  cases hc : content p with
  | none =>
    rw [hc] at h
    unfold scanFileErrors
    rw [hc]
    simpa using h.symm
  | some t =>
    rw [hc] at h
    by_cases hs : strStarts "/" p
    · simp [hs] at h
    · simp [hs] at h
      exact h.symm

theorem scanFileExc_error_iff (content : String → Option String) (p : String) :
    scanFileExc content p = .error ()
      ↔ (content p).isSome = true ∧ strStarts "/" p = true := by
  unfold scanFileExc
  cases hc : content p with
  | none => simp
  | some t =>
    by_cases hs : strStarts "/" p
    · simp [hs]
    · simp [hs]

theorem scanLoopExc_ok_val (content : String → Option String) :
    ∀ (ts : List String) (es : List String),
      scanLoopExc content ts = .ok es →
      es = ts.flatMap (scanFileErrors content) := by
  intro ts
  induction ts with
  | nil =>
    intro es h
    simpa [scanLoopExc] using h.symm
  | cons p ps ih =>
    intro es h
    unfold scanLoopExc at h
    cases hf : scanFileExc content p with
    | error e => rw [hf] at h; exact absurd h (by simp)
    | ok e1 =>
      rw [hf] at h
      cases hr : scanLoopExc content ps with
      | error e2 => rw [hr] at h; exact absurd h (by simp)
      | ok rest =>
        rw [hr] at h
        simp only [Except.ok.injEq] at h
        subst h
        rw [scanFileExc_ok_val hf, ih rest hr]
        simp

theorem scanLoopExc_error_iff (content : String → Option String) :
    ∀ ts : List String,
      scanLoopExc content ts = .error ()
        ↔ ∃ p ∈ ts, (content p).isSome = true ∧ strStarts "/" p = true := by
  intro ts
  induction ts with
  | nil => simp [scanLoopExc]
  | cons p ps ih =>
    unfold scanLoopExc
    cases hf : scanFileExc content p with
    | error e =>
      constructor
      · intro _
        exact ⟨p, List.mem_cons_self p ps,
          (scanFileExc_error_iff content p).mp hf⟩
      · intro _
        rfl
    | ok e1 =>
      cases hr : scanLoopExc content ps with
      | error e2 =>
        constructor
        · intro _
          rcases ih.mp hr with ⟨q, hq, hcond⟩
          exact ⟨q, List.mem_cons_of_mem p hq, hcond⟩
        · intro _
          rfl
      | ok rest =>
        constructor
        · intro h
          exact absurd h (by simp)
        · rintro ⟨q, hq, hcond⟩
          rcases List.mem_cons.mp hq with rfl | hq'
          · have := (scanFileExc_error_iff content q).mpr hcond
            rw [hf] at this
            exact absurd this (by simp)
          · have := ih.mpr ⟨q, hq', hcond⟩
            rw [hr] at this
            exact absurd this (by simp)

/-- C1, amended: when no decodable scan target lies outside the bundle
root, `validate`'s transcript prints every collected warning (stdout)
before any error (stderr), exits 0 exactly when no blocking error was
collected (then a success line, plus a trailing warning count when at
least one warning occurred) and 1 otherwise, and the fail-fast path exists
exactly when `SKILL.md` or `SKILL_PAYLOAD.json` is absent, producing only
the missing-file errors.  But when both required files exist and some
decodable scan target lies outside the bundle root, the run crashes — an
uncaught `ValueError` from `relative_to`, no transcript, no graceful
exit — which the first conjunct characterises exactly. -/
theorem c1_validate_output (fs : SkillFS) :
    (cmdValidate fs = .crashed
      ↔ missingFileErrors fs = []
        ∧ ∃ p ∈ scanTargets fs.pathExists fs.isFile fs.rawUnder
              (includeOf (loadPayload fs).1),
            (fs.content p).isSome = true ∧ strStarts "/" p = true)
    ∧ (cmdValidate fs ≠ .crashed →
        cmdValidate fs
          = .finished
              ((validateWarnings fs).map (fun w => (VChan.out, "warn: " ++ w))
                ++ (validateErrors fs).map (fun e => (VChan.err, "error: " ++ e))
                ++ (if validateErrors fs = [] then
                      (VChan.out, "ok: skill validation passed")
                        :: (if validateWarnings fs = [] then []
                            else [(VChan.out, "warn_count="
                                ++ toString (validateWarnings fs).length)])
                    else []))
              (if validateErrors fs = [] then 0 else 1))
    ∧ (missingFileErrors fs ≠ [] ↔ (fs.skillMd.isNone ∨ fs.payload.isNone))
    ∧ (missingFileErrors fs ≠ [] →
        validateWarnings fs = [] ∧ validateErrors fs = missingFileErrors fs
          ∧ cmdValidate fs
              = .finished ((missingFileErrors fs).map
                  (fun e => (VChan.err, "error: " ++ e))) 1)
    ∧ (missingFileErrors fs = [] →
        validateErrors fs = collectErrors fs
          ∧ validateWarnings fs = collectWarnings fs) := by
  have hmiss : missingFileErrors fs ≠ [] ↔ (fs.skillMd.isNone ∨ fs.payload.isNone) := by
    unfold missingFileErrors
    by_cases h1 : fs.skillMd.isNone <;> by_cases h2 : fs.payload.isNone <;> simp [h1, h2]
  have hexc : scanExcOf fs
      = scanLoopExc fs.content (scanTargets fs.pathExists fs.isFile fs.rawUnder
          (includeOf (loadPayload fs).1)) := rfl
  refine ⟨?_, ?_, hmiss, ?_, ?_⟩
  · by_cases hm : missingFileErrors fs = []
    · cases hs : scanExcOf fs with
      | error e =>
        have hlhs : cmdValidate fs = .crashed := by
          simp [cmdValidate, hm, hs]
        simp only [hlhs]
        constructor
        · intro _
          refine ⟨hm, ?_⟩
          rw [hexc] at hs
          exact (scanLoopExc_error_iff fs.content _).mp hs
        · intro _
          trivial
      | ok es =>
        have hlhs : cmdValidate fs ≠ .crashed := by
          simp [cmdValidate, hm, hs]
        constructor
        · intro h
          exact absurd h hlhs
        · rintro ⟨-, hex⟩
          have := (scanLoopExc_error_iff fs.content _).mpr hex
          rw [← hexc] at this
          rw [hs] at this
          exact absurd this (by simp)
    · have hlhs : cmdValidate fs ≠ .crashed := by
        simp [cmdValidate, hm]
      constructor
      · intro h
        exact absurd h hlhs
      · rintro ⟨hm', -⟩
        exact absurd hm' hm
  · intro hnc
    by_cases hm : missingFileErrors fs = []
    · have hve : validateErrors fs = collectErrors fs := by
        simp [validateErrors, hm]
      have hvw : validateWarnings fs = collectWarnings fs := by
        simp [validateWarnings, hm]
      cases hs : scanExcOf fs with
      | error e =>
        exfalso
        apply hnc
        simp [cmdValidate, hm, hs]
      | ok es =>
        have hes : collectErrorsPre fs ++ es = collectErrors fs := by
          rw [hexc] at hs
          rw [scanLoopExc_ok_val fs.content _ es hs]
          rfl
        rw [hve, hvw]
        by_cases he : collectErrors fs = [] <;> by_cases hw : collectWarnings fs = [] <;>
          simp [cmdValidate, hm, hs, hes, he, hw]
    · have h1 : validateWarnings fs = [] := by simp [validateWarnings, hm]
      have h2 : validateErrors fs = missingFileErrors fs := by simp [validateErrors, hm]
      rw [h1, h2]
      have h3 : missingFileErrors fs ≠ [] := hm
      simp [cmdValidate, h3]
  · intro hm
    refine ⟨by simp [validateWarnings, hm], by simp [validateErrors, hm], ?_⟩
    simp [cmdValidate, hm]
  · intro hm
    exact ⟨by simp [validateErrors, hm], by simp [validateWarnings, hm]⟩

/-- C1, counterexample: a bundle with both required files present whose
manifest `include` holds the absolute entry `/tmp/x.md`, naming an existing
decodable `.md` file outside the bundle.  The scan reaches
`path.relative_to(skill_dir)`, the `ValueError` propagates, and the run
crashes: no transcript is printed and no exit status is returned, refuting
the claimed unconditional transcript/exit contract (and the claimed
exclusivity of the missing-file fail-fast). -/
theorem c1_crash_counterexample :
    missingFileErrors exampleAbsIncludeFS = []
    ∧ cmdValidate exampleAbsIncludeFS = .crashed
    ∧ ∀ t n, cmdValidate exampleAbsIncludeFS ≠ .finished t n := by
  refine ⟨by decide, by decide, ?_⟩
  intro t n h
  rw [show cmdValidate exampleAbsIncludeFS = .crashed from by decide] at h
  exact VOutcome.noConfusion h

/-- C1, witness: the non-crash transcript contract at a concrete bundle. -/
theorem c1_validate_output_witness :
    cmdValidate exampleDupIncludeFS
      = .finished
          ((validateWarnings exampleDupIncludeFS).map (fun w => (VChan.out, "warn: " ++ w))
            ++ (validateErrors exampleDupIncludeFS).map (fun e => (VChan.err, "error: " ++ e))
            ++ (if validateErrors exampleDupIncludeFS = [] then
                  (VChan.out, "ok: skill validation passed")
                    :: (if validateWarnings exampleDupIncludeFS = [] then []
                        else [(VChan.out, "warn_count="
                            ++ toString (validateWarnings exampleDupIncludeFS).length)])
                else []))
          (if validateErrors exampleDupIncludeFS = [] then 0 else 1) :=
  (c1_validate_output exampleDupIncludeFS).2.1 (by decide)

/-- C8: `validate` is a function of the bundle's contents alone — two
filesystems that agree on file contents, existence and metadata but whose
recursive directory enumerations come back in different orders (any
permutation, per directory) produce the identical transcript and exit
status, because every enumeration feeding diagnostics is sorted before
use. -/
theorem c8_validate_deterministic (fs₁ fs₂ : SkillFS)
    (hroot : fs₁.root = fs₂.root) (hmd : fs₁.skillMd = fs₂.skillMd)
    (hpl : fs₁.payload = fs₂.payload) (hpe : fs₁.pathExists = fs₂.pathExists)
    (hif : fs₁.isFile = fs₂.isFile) (hid : fs₁.isDir = fs₂.isDir)
    (hct : fs₁.content = fs₂.content)
    (hperm : ∀ d, (fs₁.rawUnder d).Perm (fs₂.rawUnder d)) :
    cmdValidate fs₁ = cmdValidate fs₂ := by
  obtain ⟨r₁, s₁, p₁, pe₁, if₁, id₁, ru₁, ct₁⟩ := fs₁
  obtain ⟨r₂, s₂, p₂, pe₂, if₂, id₂, ru₂, ct₂⟩ := fs₂
  dsimp only at hroot hmd hpl hpe hif hid hct hperm
  subst hroot hmd hpl hpe hif hid hct
  have haud : auditRuntimeFiles pe₁ if₁ ru₁ = auditRuntimeFiles pe₁ if₁ ru₂ := by
    unfold auditRuntimeFiles auditDir
    rw [sortPath_eq_of_perm (hperm "scripts"),
      sortPath_eq_of_perm (hperm referenceDirCanonical),
      sortPath_eq_of_perm (hperm referenceDirLegacy)]
  have hst : ∀ inc, scanTargets pe₁ if₁ ru₁ inc = scanTargets pe₁ if₁ ru₂ inc := by
    intro inc
    unfold scanTargets
    have hfn : (fun rel =>
        let np := normPath rel
        if ¬ pe₁ np then []
        else if if₁ np then addTarget np
        else ((sortPath (ru₁ np)).filter if₁).flatMap addTarget)
        = (fun rel =>
        let np := normPath rel
        if ¬ pe₁ np then []
        else if if₁ np then addTarget np
        else ((sortPath (ru₂ np)).filter if₁).flatMap addTarget) :=
      funext (fun rel => by
        dsimp only
        rw [sortPath_eq_of_perm (hperm (normPath rel))])
    rw [hfn]
  have hcep : collectErrorsPre ⟨r₁, s₁, p₁, pe₁, if₁, id₁, ru₁, ct₁⟩
      = collectErrorsPre ⟨r₁, s₁, p₁, pe₁, if₁, id₁, ru₂, ct₁⟩ := by
    unfold collectErrorsPre
    dsimp only
    rw [haud]
    rfl
  have hexc : scanExcOf ⟨r₁, s₁, p₁, pe₁, if₁, id₁, ru₁, ct₁⟩
      = scanExcOf ⟨r₁, s₁, p₁, pe₁, if₁, id₁, ru₂, ct₁⟩ := by
    unfold scanExcOf scanAbsolutePathLiteralsExc
    dsimp only
    rw [hst]
    rfl
  have hcw : collectWarnings ⟨r₁, s₁, p₁, pe₁, if₁, id₁, ru₁, ct₁⟩
      = collectWarnings ⟨r₁, s₁, p₁, pe₁, if₁, id₁, ru₂, ct₁⟩ := by
    unfold collectWarnings
    dsimp only
    rw [haud]
    rfl
  unfold cmdValidate
  dsimp only
  rw [hexc, hcep, hcw]
  rfl

/-- C8, witness: the two concrete enumeration orders of the same bundle
give identical transcripts. -/
theorem c8_validate_deterministic_witness :
    cmdValidate examplePermFSa = cmdValidate examplePermFSb :=
  c8_validate_deterministic examplePermFSa examplePermFSb rfl rfl rfl rfl rfl rfl rfl
    (fun d => by
      by_cases hd : d = "reference"
      · subst hd
        simp [examplePermFSa, examplePermFSb]
        decide
      · simp [examplePermFSa, examplePermFSb, hd])
